import Mathlib

/-!
Shallow embedding of the extraction, merge and persistence engine of the
array-decisionops repository (src/lib/parser.ts, triggers.ts, decisionEngine.ts,
llmMerge.ts, sync.ts, orchestrate.ts), together with theorems settling the
frozen claims about it.

Strings are modelled as Lean `String` (sequences of code points).  JavaScript
string operations used by the code (`toLowerCase`, `trim`, `includes`,
`split`, `slice`, regular-expression tests) are modelled character by
character below; the models are faithful for the ASCII text the engine's
trigger vocabulary and identifiers consist of.
-/

namespace Engine

/-- Keeps the first occurrence of every element, dropping later duplicates.
Models the observable content of a JavaScript `Set` built by insertion
(`new Set(xs)` / `.add`) and read back with `Array.from`. -/
def dedupKeepFirst (xs : List String) : List String :=
  xs.foldl (fun acc h => if acc.contains h then acc else acc ++ [h]) []

/-- Association-list lookup; models reading `obj[key]` on a JS object whose
keys are the non-numeric strings this engine uses. -/
def alistGet {α : Type} (m : List (String × α)) (k : String) : Option α :=
  (m.find? (fun p => p.1 == k)).map (fun p => p.2)

/-- Association-list update; models `obj[key] = v`: an existing key keeps its
position, a new key is appended (JS property-insertion order). -/
def alistSet {α : Type} (m : List (String × α)) (k : String) (v : α) :
    List (String × α) :=
  if (m.find? (fun p => p.1 == k)).isSome then
    m.map (fun p => if p.1 == k then (k, v) else p)
  else m ++ [(k, v)]

/-- Association-list deletion; models `delete obj[key]`. -/
def alistDel {α : Type} (m : List (String × α)) (k : String) :
    List (String × α) :=
  m.filter (fun p => p.1 != k)

/-- Boolean pairwise check used to state the uniqueness invariants the
backing store is assumed to enforce (spec section 5). -/
def pairwiseB {α : Type} (p : α → α → Bool) : List α → Bool
  | [] => true
  | x :: xs => xs.all (p x) && pairwiseB p xs

/-- Structural worker for `chunkArray`; the fuel starts at the list length,
which bounds the number of chunks. -/
def chunkArrayGo {α : Type} : Nat → List α → Nat → List (List α)
  | 0, _, _ => []
  | _, [], _ => []
  | fuel + 1, a :: arr, size =>
      if size = 0 then []
      else (a :: arr).take size ::
        chunkArrayGo fuel ((a :: arr).drop size) size

/-- `chunkArray` from decisionEngine.ts / sync.ts / orchestrate.ts: splits a
list into consecutive chunks of at most `size` elements. -/
def chunkArray {α : Type} (arr : List α) (size : Nat) : List (List α) :=
  chunkArrayGo arr.length arr size

/-- A JS word character for `\b` and `\w`: `[A-Za-z0-9_]`. -/
def isWordChar (c : Char) : Bool :=
  (('A' ≤ c && c ≤ 'Z') || ('a' ≤ c && c ≤ 'z') || ('0' ≤ c && c ≤ '9')
    || c == '_')

/-- JS whitespace (`\s`, and what `trim` strips): space, tab, newlines and the
common unicode space characters. -/
def isJsSpace (c : Char) : Bool :=
  c == ' ' || c == '\t' || c == '\n' || c == '\r' ||
  c == '\x0b' || c == '\x0c' || c == '\u00a0' || c == '\u2009' ||
  c == '\u3000' || c == '\ufeff'

/-- ASCII lowercasing of one character, as `String.prototype.toLowerCase`
acts on the ASCII range the trigger vocabulary lives in. -/
def jsToLowerChar (c : Char) : Char :=
  if 'A' ≤ c && c ≤ 'Z' then Char.ofNat (c.toNat + 32) else c

/-- Models `s.toLowerCase()` (ASCII range). -/
def jsToLower (s : String) : String :=
  ⟨s.data.map jsToLowerChar⟩

/-- If `p` is a prefix of `s`, the rest of `s` after it. -/
def restAfter : List Char → List Char → Option (List Char)
  | [], s => some s
  | _, [] => none
  | c :: p, d :: s => if c == d then restAfter p s else none

/-- Case-insensitive (ASCII) variant of `restAfter`, for `/i` patterns. -/
def restAfterCI : List Char → List Char → Option (List Char)
  | [], s => some s
  | _, [] => none
  | c :: p, d :: s =>
      if jsToLowerChar c == jsToLowerChar d then restAfterCI p s else none

/-- Does `needle` occur in `hay`?  Models `hay.includes(needle)`. -/
def includesChars (needle : List Char) : List Char → Bool
  | [] => (restAfter needle []).isSome
  | c :: s => (restAfter needle (c :: s)).isSome || includesChars needle s

/-- Models `hay.includes(needle)` on strings. -/
def includesStr (hay needle : String) : Bool :=
  includesChars needle.data hay.data

/-- Models `s.trim()`. -/
def jsTrim (s : String) : String :=
  ⟨(s.data.dropWhile isJsSpace).reverse.dropWhile isJsSpace |>.reverse⟩

/-- Models `s.trimEnd()`. -/
def jsTrimEnd (s : String) : String :=
  ⟨(s.data.reverse.dropWhile isJsSpace).reverse⟩

/-- Models `s.split("\n")[0]`: the text up to the first newline. -/
def firstLine (s : String) : String :=
  ⟨s.data.takeWhile (fun c => c != '\n')⟩

/-- Splits a character list at every occurrence of a separator satisfying
`sep`, keeping empty pieces — the behaviour of `String.prototype.split` with
a single-character-class regex. -/
def splitChars (sep : Char → Bool) : List Char → List (List Char)
  | [] => [[]]
  | c :: s =>
      let rest := splitChars sep s
      if sep c then [] :: rest
      else
        match rest with
        | [] => [[c]]
        | piece :: pieces => (c :: piece) :: pieces

/-- Models `s.split(re)` for a single-character-class regex `re`. -/
def splitStr (s : String) (sep : Char → Bool) : List String :=
  (splitChars sep s.data).map (fun l => ⟨l⟩)

/-- Models `s.trim().replace(/\s+/g, " ")` composed as the timestamp/sender
normalization in computeMessageHash does it: collapse internal whitespace
runs to single spaces after trimming. -/
def collapseWs (s : String) : String :=
  ⟨go false ((jsTrim s).data)⟩
where
  go : Bool → List Char → List Char
    | _, [] => []
    | inRun, c :: s =>
        if isJsSpace c then (if inRun then go true s else ' ' :: go true s)
        else c :: go false s

/-- Scans every position of a string (represented as the character just
before the position, if any, plus the remaining characters) and succeeds if
the position predicate holds somewhere.  This is how `RegExp.prototype.test`
searches for a match. -/
def scanPos (p : Option Char → List Char → Bool) :
    Option Char → List Char → Bool
  | prev, [] => p prev []
  | prev, c :: s => p prev (c :: s) || scanPos p (some c) s

/-- Boundary check on the left of a match whose first character is a word
character: `\b` holds there exactly when the previous character is absent or
not a word character. -/
def wbBefore (prev : Option Char) : Bool :=
  match prev with
  | none => true
  | some c => !isWordChar c

/-- Boundary check after a match whose last character is a word character. -/
def wbAfter (rest : List Char) : Bool :=
  match rest with
  | [] => true
  | c :: _ => !isWordChar c

/-- One alternative of a `/\b(p1|p2|...)\b/i` pattern matched at the current
position (every alternative used by triggers.ts starts and ends with a word
character, so `\b` reduces to `wbBefore` / `wbAfter`). -/
def phraseAtWB (phrase : List Char) (prev : Option Char) (s : List Char) :
    Bool :=
  wbBefore prev &&
    (match restAfterCI phrase s with
     | none => false
     | some rest => wbAfter rest)

/-- Models `/\b(p1|p2|...)\b/i.test(s)` for literal alternatives. -/
def testWB (phrases : List String) (s : String) : Bool :=
  scanPos (fun prev rest => phrases.any (fun p => phraseAtWB p.data prev rest))
    none s.data

/-- Consume one-or-more JS whitespace characters (`\s+`); the following token
always starts with a word character, so the maximal munch is the only
possible one. -/
def skipWs1 : List Char → Option (List Char)
  | [] => none
  | c :: s => if isJsSpace c then some (s.dropWhile isJsSpace) else none

/-- Consume one-or-more word characters (`\w+`) followed by `\s+`, the
intervening-word group of RESP_PLEASE_ACTION_RE. -/
def skipWordWs : List Char → Option (List Char)
  | [] => none
  | c :: s =>
      if isWordChar c then skipWs1 (s.dropWhile isWordChar) else none

-- ─── parser.ts ────────────────────────────────────────────────────────────────

/-- Modelled from the spec: `generateHash` lives in src/lib/hash.ts, which is
not among the provided sources (only its importers are).  The spec and the
architecture document describe it as a deterministic SHA-256 content hash
("Fingerprint = a content hash over normalized_timestamp | normalized_sender
| normalized_body"; "Hashing: Node.js crypto (SHA-256)"), on whose
distinctness the design relies for identity ("a derived id from a stable
hash of a normalized-title key").  It is therefore modelled as an injective
deterministic encoding of its input, and the 12-hex-character
`.slice(0, 12)` prefix callers take from the digest is likewise treated as
collision-free and modelled by the full encoding. -/
def generateHash (s : String) : String := s

/-- `normalizeMessageText` from parser.ts: normalize line endings, trim the
whole text, strip trailing spaces/tabs from each line, preserve internal
newlines. -/
def normalizeMessageText (text : String) : String :=
  let unixed : List Char := crlf text.data
  let trimmed := jsTrim ⟨unixed⟩
  let pieces := splitStr trimmed (fun c => c == '\n')
  String.intercalate "\n"
    (pieces.map (fun l =>
      ⟨(l.data.reverse.dropWhile (fun c => c == ' ' || c == '\t')).reverse⟩))
where
  crlf : List Char → List Char
    | [] => []
    | '\r' :: '\n' :: s => '\n' :: crlf s
    | '\r' :: s => '\n' :: crlf s
    | c :: s => c :: crlf s

/-- `computeMessageHash` from parser.ts: the message fingerprint, a hash of
`normalized_timestamp | normalized_sender | normalized_message_text`. -/
def computeMessageHash (timestamp sender message_text : String) : String :=
  let nt := collapseWs timestamp
  let ns := collapseWs sender
  let nm := normalizeMessageText message_text
  generateHash (nt ++ "|" ++ ns ++ "|" ++ nm)

/-- Models `parseInt(s, 10)` on the unsigned decimal strings captured by the
header regex: leading whitespace is skipped, then a run of decimal digits is
read; `none` models `NaN` (no digit found). -/
def jsParseInt (s : String) : Option Nat :=
  let cs := s.data.dropWhile isJsSpace
  let ds := cs.takeWhile Char.isDigit
  if ds.isEmpty then none
  else some (ds.foldl (fun n c => 10 * n + (c.toNat - '0'.toNat)) 0)

/-- `parseInt` applied to an optional indexing result; a missing element is
`undefined`, and `parseInt(undefined)` is `NaN`. -/
def jsParseIntOpt (o : Option String) : Option Nat :=
  o.bind jsParseInt

/-- The argument tuple the parser hands to `Date.UTC(...)`.
`Date.UTC(year, monthIndex, day, hour, minute, 0, 0).toISOString()` is a
further injective canonical rendering (calendar normalization plus ISO 8601
formatting, identical on every machine because `Date.UTC` is
timezone-independent); the claims about `parseTimestampToISO` concern how
the textual components are interpreted, which this tuple captures. -/
structure UTCParts where
  year : Int
  monthIndex : Int
  day : Int
  hour : Int
  minute : Int
deriving Repr, DecidableEq

/-- `parseTimestampToISO` from parser.ts, up to the final `Date.UTC`
rendering (see `UTCParts`).  `none` models the `NaN`/Invalid Date path. -/
def parseTimestampToISO (date time : String) (ampm : Option String) :
    Option UTCParts := do
  let dateParts := splitStr date (fun c => c == '/' || c == '.' || c == '-')
  let p0 ← jsParseIntOpt (dateParts.get? 0)
  let p1 ← jsParseIntOpt (dateParts.get? 1)
  let y0 ← jsParseIntOpt (dateParts.get? 2)
  let year := if y0 < 100 then y0 + 2000 else y0
  let month := if p0 > 12 then p1 else p0
  let day := if p0 > 12 then p0 else p1
  let timeParts := splitStr time (fun c => c == ':')
  let hour0 ← jsParseIntOpt (timeParts.get? 0)
  let minute ← jsParseIntOpt (timeParts.get? 1)
  let hour :=
    match ampm with
    | some a =>
        if a ≠ "" then
          if jsToLower a = "pm" then (if hour0 ≠ 12 then hour0 + 12 else hour0)
          else (if hour0 = 12 then 0 else hour0)
        else hour0
    | none => hour0
  pure ⟨(year : Int), (month : Int) - 1, (day : Int), (hour : Int),
    (minute : Int)⟩

-- ─── triggers.ts ──────────────────────────────────────────────────────────────

/-- Phrases that signal a confirmed, final decision (DECISION_FINAL_TRIGGERS). -/
def DECISION_FINAL_TRIGGERS : List String :=
  ["final decision", "we decided", "it\x27s decided", "it is decided",
   "we\x27ve decided", "we have decided", "decision made", "decision is",
   "confirmed:", "confirmed.",
   "approved", "we approved", "all agreed", "everyone agreed",
   "we all agreed",
   "go ahead with", "going ahead with", "we chose", "we have chosen",
   "we selected", "we settled on", "we\x27ll use", "we will use",
   "we\x27re using", "we are using",
   "that\x27s final", "that is final", "so it\x27s", "done, we",
   "ok, decided", "ok decided", "alright, decided"]

/-- Phrases that signal a tentative or proposed decision
(DECISION_TENTATIVE_TRIGGERS). -/
def DECISION_TENTATIVE_TRIGGERS : List String :=
  ["let\x27s go with", "lets go with", "we will go with",
   "we\x27re going with", "we are going with", "the plan is", "our plan is",
   "the plan will be",
   "i suggest", "i propose", "proposal:", "proposed:", "i think we should",
   "i think we go", "we should go with", "we could go with",
   "maybe we go with",
   "sounds like a plan", "sounds good, let\x27s", "agreed on",
   "we agreed on", "makes sense to go",
   "let\x27s do", "let\x27s use", "going with", "we go with",
   "we\x27ll go ahead", "we will go ahead", "ideally we",
   "moving forward with", "we move forward with"]

/-- Position predicate of `/\boption\s+[a-z]\b/i`. -/
def optionSelectAt (prev : Option Char) (s : List Char) : Bool :=
  wbBefore prev &&
    (match restAfterCI ("option".data) s with
     | none => false
     | some rest =>
         match skipWs1 rest with
         | none => false
         | some rest2 =>
             match rest2 with
             | c :: rest3 =>
                 ('a' ≤ jsToLowerChar c && jsToLowerChar c ≤ 'z') &&
                   wbAfter rest3
             | [] => false)

/-- Models `OPTION_SELECT_RE.test(s)` for `/\boption\s+[a-z]\b/i`. -/
def OPTION_SELECT_RE (s : String) : Bool :=
  scanPos optionSelectAt none s.data

/-- Models `RESP_SELF_RE.test(s)`: self-assignment phrasing. -/
def RESP_SELF_RE (s : String) : Bool :=
  testWB ["i will", "i\x27ll", "i\x27m going to", "i am going to",
    "i can do", "i\x27ll take"] s

/-- Models `RESP_OTHER_RE.test(s)`: delegation phrasing. -/
def RESP_OTHER_RE (s : String) : Bool :=
  testWB ["can you", "you will", "need you to", "you need to", "could you",
    "would you", "please ensure", "are you able to"] s

/-- The concrete action verbs of RESP_PLEASE_ACTION_RE. -/
def RESP_ACTION_VERBS : List String :=
  ["send", "complete", "finish", "review", "update", "check", "fix",
   "write", "create", "add", "remove", "submit", "make", "do", "handle",
   "take", "get", "set", "ensure", "confirm", "prepare", "share", "upload",
   "schedule", "book", "arrange", "contact", "follow", "coordinate", "test",
   "deploy", "build", "run", "implement", "draft", "collect", "gather"]

/-- One action-verb alternative matched at the current position with a `\b`
after it. -/
def actionVerbWB (s : List Char) : Bool :=
  RESP_ACTION_VERBS.any (fun v =>
    match restAfterCI v.data s with
    | none => false
    | some rest => wbAfter rest)

/-- The `(?:\w+\s+){0,3}(action)\b` tail of RESP_PLEASE_ACTION_RE: up to `k`
intervening words before an action verb. -/
def pleaseGroups : Nat → List Char → Bool
  | 0, s => actionVerbWB s
  | k + 1, s =>
      actionVerbWB s ||
        (match skipWordWs s with
         | some r => pleaseGroups k r
         | none => false)

/-- Position predicate of RESP_PLEASE_ACTION_RE
(`/\bplease\s+(?:\w+\s+){0,3}(send|...)\b/i`). -/
def pleaseActionAt (prev : Option Char) (s : List Char) : Bool :=
  wbBefore prev &&
    (match restAfterCI ("please".data) s with
     | none => false
     | some rest =>
         match skipWs1 rest with
         | some r => pleaseGroups 3 r
         | none => false)

/-- Models `RESP_PLEASE_ACTION_RE.test(s)`. -/
def RESP_PLEASE_ACTION_RE (s : String) : Bool :=
  scanPos pleaseActionAt none s.data

/-- High-signal standalone task phrases (RESP_GENERAL_TRIGGER_PHRASES). -/
def RESP_GENERAL_TRIGGER_PHRASES : List String :=
  ["handle this", "take care of",
   "will do", "on it", "i\x27m on it", "im on it", "i am on it",
   "i will handle", "i will send", "i will update", "i will check",
   "i will prepare", "i will follow up", "i will review", "i will confirm",
   "i will share", "i will coordinate", "i will sort", "i will get",
   "i will make",
   "follow up with", "responsible for", "assigned to", "action item",
   "your task", "your action",
   "noted, i will", "noted, will", "sure, i\x27ll", "sure, i will",
   "ok i will", "ok i\x27ll", "alright i will", "alright i\x27ll",
   "need to be done by", "must be done by", "due on", "due by"]

/-- Models `RESP_DEADLINE_RE.test(s)` for `/\bdeadline\b/i`. -/
def RESP_DEADLINE_RE (s : String) : Bool :=
  testWB ["deadline"] s

/-- Models `RESP_DEADLINE_ACTION_RE.test(s)` for
`/\b(by|before|until|submit|send|complete|finish|deliver)\b/i`. -/
def RESP_DEADLINE_ACTION_RE (s : String) : Bool :=
  testWB ["by", "before", "until", "submit", "send", "complete", "finish",
    "deliver"] s

-- ─── contracts.ts ─────────────────────────────────────────────────────────────

/-- `DecisionStatus` from contracts.ts: exactly the two values
`"Final" | "Tentative"`. -/
inductive DecisionStatus where
  | Final : DecisionStatus
  | Tentative : DecisionStatus
deriving Repr, DecidableEq

/-- The string value a `DecisionStatus` serializes to when handed to the
untyped storage layer. -/
def DecisionStatus.text : DecisionStatus → String
  | .Final => "Final"
  | .Tentative => "Tentative"

/-- `ResponsibilityStatus` from contracts.ts. -/
inductive ResponsibilityStatus where
  | Open : ResponsibilityStatus
  | Overdue : ResponsibilityStatus
  | Completed : ResponsibilityStatus
deriving Repr, DecidableEq

/-- Serialized form of a `ResponsibilityStatus`. -/
def ResponsibilityStatus.text : ResponsibilityStatus → String
  | .Open => "Open"
  | .Overdue => "Overdue"
  | .Completed => "Completed"

/-- `DecisionItem` from contracts.ts.  The optional `thread_key` is the
`DecisionItem & { thread_key?: string }` working extension llmMerge.ts uses;
it is absent (`none`) on every deterministic item. -/
structure DecisionItem where
  id : String
  title : String
  version : Nat
  status : DecisionStatus
  confidence : Nat
  lastUpdated : String
  explanation : String
  timestamp : String
  thread_key : Option String := none
deriving Repr, DecidableEq

/-- `ResponsibilityItem` from contracts.ts (with the `evidenceCount` field
decisionEngine.ts sets). -/
structure ResponsibilityItem where
  id : String
  title : String
  owner : String
  due : String
  status : ResponsibilityStatus
  description : String
  timestamp : String
  evidenceCount : Nat
deriving Repr, DecidableEq

/-- `MessageInput` from decisionEngine.ts. -/
structure MessageInput where
  sender : String
  message_text : String
  message_hash : String
  timestamp : String
deriving Repr, DecidableEq

/-- `ExtractDecisionsResult` from decisionEngine.ts; the record
`evidenceByDecisionId` is the JS object modelled as an association list. -/
structure ExtractDecisionsResult where
  items : List DecisionItem
  evidenceByDecisionId : List (String × List String)
deriving Repr, DecidableEq

/-- `ExtractResponsibilitiesResult` from decisionEngine.ts. -/
structure ExtractResponsibilitiesResult where
  items : List ResponsibilityItem
  evidenceByResponsibilityId : List (String × List String)
deriving Repr, DecidableEq

-- ─── decisionEngine.ts: extraction ────────────────────────────────────────────

/-- `slugify` from decisionEngine.ts: lowercase, collapse every run of
non-`[a-z0-9]` characters to one underscore, strip leading/trailing
underscores, keep at most 64 characters. -/
def slugify (title : String) : String :=
  let lowered := (jsToLower title).data
  let collapsed := go false lowered
  let stripped :=
    ((collapsed.dropWhile (fun c => c == '_')).reverse.dropWhile
      (fun c => c == '_')).reverse
  ⟨stripped.take 64⟩
where
  isKept (c : Char) : Bool := ('a' ≤ c && c ≤ 'z') || ('0' ≤ c && c ≤ '9')
  go : Bool → List Char → List Char
    | _, [] => []
    | inRun, c :: s =>
        if isKept c then c :: go false s
        else if inRun then go true s
        else '_' :: go true s

/-- `truncate` from decisionEngine.ts: trim, and when longer than `maxLen`
cut to `maxLen - 1` characters, trim the end and append an ellipsis. -/
def truncate (text : String) (maxLen : Nat) : String :=
  let t := jsTrim text
  if t.data.length ≤ maxLen then t
  else jsTrimEnd ⟨t.data.take (maxLen - 1)⟩ ++ "…"

/-- `detectDecisionStatus` from decisionEngine.ts: final triggers are checked
first, then tentative triggers, then the option-selection pattern. -/
def detectDecisionStatus (lower : String) : Option DecisionStatus :=
  if DECISION_FINAL_TRIGGERS.any (fun t => includesStr lower t) then
    some .Final
  else if DECISION_TENTATIVE_TRIGGERS.any (fun t => includesStr lower t) then
    some .Tentative
  else if OPTION_SELECT_RE lower then some .Tentative
  else none

/-- `buildDecisionTitle` from decisionEngine.ts: the message's first line,
trimmed and truncated to 80 characters. -/
def buildDecisionTitle (msg : MessageInput) : String :=
  truncate (jsTrim (firstLine msg.message_text)) 80

/-- `buildDecisionExplanation` from decisionEngine.ts. -/
def buildDecisionExplanation (msg : MessageInput) : String :=
  truncate ("Decision based on: \"" ++ jsTrim (firstLine msg.message_text)
    ++ "\"") 200

/-- The id `"dec_" + generateHash("decision|" + title).slice(0, 12)` computed
by extractDecisions and mergeDecisions; the slice of the hex digest is
modelled by the full digest (see `generateHash`). -/
def decisionIdOf (title : String) : String :=
  "dec_" ++ generateHash ("decision|" ++ title)

/-- The id `"resp_" + generateHash("resp|" + key).slice(0, 12)` computed by
extractResponsibilities and mergeResponsibilities. -/
def respIdOf (key : String) : String :=
  "resp_" ++ generateHash ("resp|" ++ key)

/-- The message loop of `extractDecisions`, with the accumulated items,
evidence record and seen-id set made explicit. -/
def extractDecisionsGo (seen : List String) (items : List DecisionItem)
    (evid : List (String × List String)) :
    List MessageInput → ExtractDecisionsResult
  | [] => ⟨items, evid⟩
  | msg :: rest =>
      let lower := jsToLower msg.message_text
      match detectDecisionStatus lower with
      | none => extractDecisionsGo seen items evid rest
      | some status =>
          let title := buildDecisionTitle msg
          let id := decisionIdOf title
          if seen.contains id then extractDecisionsGo seen items evid rest
          else
            let confidence : Nat := if status = .Final then 80 else 60
            let item : DecisionItem :=
              { id := id, title := title, version := 1, status := status,
                confidence := confidence, lastUpdated := msg.timestamp,
                explanation := buildDecisionExplanation msg,
                timestamp := msg.timestamp }
            extractDecisionsGo (seen ++ [id]) (items ++ [item])
              (evid ++ [(id, [msg.message_hash])]) rest

/-- `extractDecisions` from decisionEngine.ts. -/
def extractDecisions (messages : List MessageInput) :
    ExtractDecisionsResult :=
  extractDecisionsGo [] [] [] messages

/-- `detectResponsibilityTrigger` from decisionEngine.ts: the disjunctive
responsibility rule set, in source order. -/
def detectResponsibilityTrigger (lower original : String) : Bool :=
  if RESP_SELF_RE original then true
  else if RESP_OTHER_RE lower then true
  else if RESP_PLEASE_ACTION_RE original then true
  else if RESP_GENERAL_TRIGGER_PHRASES.any (fun p => includesStr lower p) then
    true
  else if RESP_DEADLINE_RE lower && RESP_DEADLINE_ACTION_RE lower then true
  else false

/-- `buildResponsibilityOwner` from decisionEngine.ts. -/
def buildResponsibilityOwner (msg : MessageInput) : String :=
  if RESP_SELF_RE msg.message_text then msg.sender
  else if RESP_OTHER_RE (jsToLower msg.message_text) then "unassigned"
  else "unassigned"

/-- `buildResponsibilityTitle` from decisionEngine.ts. -/
def buildResponsibilityTitle (msg : MessageInput) : String :=
  truncate (jsTrim (firstLine msg.message_text)) 80

/-- The message loop of `extractResponsibilities`. -/
def extractResponsibilitiesGo (seen : List String)
    (items : List ResponsibilityItem)
    (evid : List (String × List String)) :
    List MessageInput → ExtractResponsibilitiesResult
  | [] => ⟨items, evid⟩
  | msg :: rest =>
      let lower := jsToLower msg.message_text
      if detectResponsibilityTrigger lower msg.message_text then
        let title := buildResponsibilityTitle msg
        let id := respIdOf title
        if seen.contains id then extractResponsibilitiesGo seen items evid rest
        else
          let item : ResponsibilityItem :=
            { id := id, title := title, owner := buildResponsibilityOwner msg,
              due := "", status := .Open, description := "",
              timestamp := msg.timestamp, evidenceCount := 0 }
          extractResponsibilitiesGo (seen ++ [id]) (items ++ [item])
            (evid ++ [(id, [msg.message_hash])]) rest
      else extractResponsibilitiesGo seen items evid rest

/-- `extractResponsibilities` from decisionEngine.ts. -/
def extractResponsibilities (messages : List MessageInput) :
    ExtractResponsibilitiesResult :=
  extractResponsibilitiesGo [] [] [] messages

-- ─── Storage model (Supabase tables reached through the untyped client) ──────

/-- A row of the `messages` table as sync.ts inserts it (the auxiliary
`wa_line_no` column is not read by any code under verification and is left
out). -/
structure MsgRow where
  id : Nat
  chat_id : String
  sender : String
  msg_ts : String
  text : String
  msg_sha256 : String
deriving Repr, DecidableEq, BEq

/-- A row of `decision_threads`. -/
structure ThreadRow where
  id : Nat
  chat_id : String
  thread_key : String
deriving Repr, DecidableEq, BEq

/-- A row of `decisions`; `status` is the serialized string the untyped
client stores. -/
structure DecisionRow where
  id : Nat
  thread_id : Nat
  version_no : Nat
  status : String
  confidence : Nat
  decision_title : String
  final_outcome : String
  decided_at : String
deriving Repr, DecidableEq, BEq

/-- A row of `decision_evidence`. -/
structure EvidenceRow where
  decision_id : Nat
  message_id : Nat
deriving Repr, DecidableEq, BEq

/-- A row of `responsibilities`. -/
structure RespRow where
  chat_id : String
  owner : String
  task_text : String
  status : String
  due_date : Option String
  source_message_id : Option Nat
deriving Repr, DecidableEq, BEq

/-- The relational store, with a fresh-id counter for generated row ids. -/
structure DB where
  messages : List MsgRow
  threads : List ThreadRow
  decisions : List DecisionRow
  decision_evidence : List EvidenceRow
  responsibilities : List RespRow
  nextId : Nat
deriving Repr, DecidableEq

/-- Models `.maybeSingle()`: the row when exactly one matches; zero rows give
null data, and several rows make PostgREST report an error whose data the
callers read as null as well. -/
def singleMatch {α : Type} (l : List α) (p : α → Bool) : Option α :=
  match l.filter p with
  | [x] => some x
  | _ => none

/-- The three counters `persistDecisions` returns. -/
structure DecPersistCounts where
  threads_inserted : Nat
  decisions_inserted : Nat
  evidence_inserted : Nat
deriving Repr, DecidableEq

-- ─── decisionEngine.ts: persistDecisions ─────────────────────────────────────

/-- The body of the evidence-chunk loop of `persistDecisions`: resolve the
chunk's hashes to stored messages of the scope and attach the resulting
(decision, message) pairs, skipping pairs already linked (the idempotent
evidence attachment); the counter counts the attempted rows as the source
does. -/
def persistEvidenceChunkStep (chat_id : String) (decision_id : Nat)
    (st : DB × DecPersistCounts) (chunk : List String) :
    DB × DecPersistCounts :=
  let (db, counts) := st
  let msgRows := db.messages.filter
    (fun m => m.chat_id == chat_id && chunk.contains m.msg_sha256)
  if msgRows.isEmpty then (db, counts)
  else
    let evidenceRows := msgRows.map (fun m => EvidenceRow.mk decision_id m.id)
    let newRows := evidenceRows.filter
      (fun e => !(db.decision_evidence.contains e))
    ({ db with decision_evidence := db.decision_evidence ++ newRows },
     { counts with evidence_inserted :=
        counts.evidence_inserted + evidenceRows.length })

/-- The body of the `for (const dec of decisions)` loop of
`persistDecisions`: find-or-create the thread for the candidate's slug, skip
when a row with this (thread, version) already exists, otherwise insert the
decision row and resolve and attach its evidence hashes in chunks. -/
def persistDecisionStep (chat_id : String)
    (evidenceByDecisionId : List (String × List String))
    (st : DB × DecPersistCounts) (dec : DecisionItem) :
    DB × DecPersistCounts :=
  let (db, counts) := st
  let thread_key := slugify dec.title
  let found := singleMatch db.threads
    (fun t => t.chat_id == chat_id && t.thread_key == thread_key)
  let (db, counts, threadRow) :=
    match found with
    | some t => (db, counts, t)
    | none =>
        let t : ThreadRow :=
          { id := db.nextId, chat_id := chat_id, thread_key := thread_key }
        ({ db with threads := db.threads ++ [t], nextId := db.nextId + 1 },
         { counts with threads_inserted := counts.threads_inserted + 1 }, t)
  let thread_id := threadRow.id
  match singleMatch db.decisions
      (fun d => d.thread_id == thread_id && d.version_no == dec.version) with
  | some _ => (db, counts)
  | none =>
      let decRow : DecisionRow :=
        { id := db.nextId, thread_id := thread_id, version_no := dec.version,
          status := dec.status.text, confidence := dec.confidence,
          decision_title := dec.title, final_outcome := dec.explanation,
          decided_at := dec.timestamp }
      let db :=
        { db with decisions := db.decisions ++ [decRow],
                  nextId := db.nextId + 1 }
      let counts :=
        { counts with decisions_inserted := counts.decisions_inserted + 1 }
      let hashes := (alistGet evidenceByDecisionId dec.id).getD []
      if hashes.isEmpty then (db, counts)
      else
        (chunkArray hashes 500).foldl
          (persistEvidenceChunkStep chat_id decRow.id) (db, counts)

/-- `persistDecisions` from decisionEngine.ts over the storage model. -/
def persistDecisions (db : DB) (chat_id : String)
    (decisions : List DecisionItem)
    (evidenceByDecisionId : List (String × List String)) :
    DB × DecPersistCounts :=
  decisions.foldl (persistDecisionStep chat_id evidenceByDecisionId)
    (db, ⟨0, 0, 0⟩)

-- ─── decisionEngine.ts: persistResponsibilities ───────────────────────────────

/-- The task text `resp.title + (resp.description ? " — " + resp.description
: "")` that `persistResponsibilities` stores and deduplicates on. -/
def taskTextOf (resp : ResponsibilityItem) : String :=
  resp.title ++
    (if resp.description != "" then " — " ++ resp.description else "")

/-- The body of the `for (const resp of responsibilities)` loop of
`persistResponsibilities`: resolve the first evidence hash to a message id
when possible, skip when a row with this (chat, owner, task text) already
exists, otherwise insert — note that the row is inserted even when no
evidence hash resolved (`source_message_id` stays null). -/
def persistResponsibilityStep (chat_id : String)
    (evidenceByResponsibilityId : List (String × List String))
    (st : DB × Nat) (resp : ResponsibilityItem) : DB × Nat :=
  let (db, inserted) := st
  let hashes := (alistGet evidenceByResponsibilityId resp.id).getD []
  let source_message_id : Option Nat :=
    match hashes with
    | [] => none
    | h :: _ =>
        (singleMatch db.messages
          (fun m => m.chat_id == chat_id && m.msg_sha256 == h)).map
          (fun m => m.id)
  let task_text := taskTextOf resp
  match singleMatch db.responsibilities
      (fun r => r.chat_id == chat_id && r.owner == resp.owner &&
        r.task_text == task_text) with
  | some _ => (db, inserted)
  | none =>
      ({ db with responsibilities := db.responsibilities ++
          [{ chat_id := chat_id, owner := resp.owner, task_text := task_text,
             status := resp.status.text, due_date := none,
             source_message_id := source_message_id }] },
       inserted + 1)

/-- `persistResponsibilities` from decisionEngine.ts. -/
def persistResponsibilities (db : DB) (chat_id : String)
    (responsibilities : List ResponsibilityItem)
    (evidenceByResponsibilityId : List (String × List String)) : DB × Nat :=
  responsibilities.foldl
    (persistResponsibilityStep chat_id evidenceByResponsibilityId) (db, 0)

-- ─── orchestrate.ts and sync.ts (step 3) ─────────────────────────────────────

/-- Stable insertion preserving the original relative order of elements the
comparator ties; `le x y` means `x` may stay in front of `y`. -/
def insertSorted {α : Type} (le : α → α → Bool) (x : α) : List α → List α
  | [] => [x]
  | y :: ys => if le x y then x :: y :: ys else y :: insertSorted le x ys

/-- Stable sort (the result of any stable comparator sort, which is what
`ORDER BY` pagination and `Array.prototype.sort` produce here). -/
def stableSortBy {α : Type} (le : α → α → Bool) : List α → List α
  | [] => []
  | x :: xs => insertSorted le x (stableSortBy le xs)

/-- `fetchChatMessages` from orchestrate.ts: all messages of the chat,
ordered chronologically by `msg_ts`, shaped as `MessageInput`s.  (The
sibling `fetchImportMessages`, scoped to one import, resolves to the same
message set for a full import; the paginated `ORDER BY msg_ts` read is
modelled as a stable ascending sort.) -/
def fetchChatMessages (db : DB) (chat_id : String) : List MessageInput :=
  (stableSortBy (fun a b => !(decide (b.msg_ts < a.msg_ts)))
    (db.messages.filter (fun m => m.chat_id == chat_id))).map
    (fun m =>
      { sender := m.sender, message_text := m.text,
        message_hash := m.msg_sha256, timestamp := m.msg_ts })

/-- `AnalysisResult` from orchestrate.ts. -/
structure AnalysisResult where
  messages_analysed : Nat
  decisions_detected : Nat
  decisions_new : Nat
  responsibilities_detected : Nat
  responsibilities_new : Nat
deriving Repr, DecidableEq

/-- `runAnalysisPipeline` from orchestrate.ts: fetch the scope's messages,
run the deterministic extraction, persist decisions then responsibilities. -/
def runAnalysisPipeline (db : DB) (chat_id : String) : DB × AnalysisResult :=
  let messages := fetchChatMessages db chat_id
  if messages.isEmpty then (db, ⟨0, 0, 0, 0, 0⟩)
  else
    let decisionsResult := extractDecisions messages
    let responsibilitiesResult := extractResponsibilities messages
    let (db1, decCounts) := persistDecisions db chat_id
      decisionsResult.items decisionsResult.evidenceByDecisionId
    let (db2, respInserted) := persistResponsibilities db1 chat_id
      responsibilitiesResult.items
      responsibilitiesResult.evidenceByResponsibilityId
    (db2,
     { messages_analysed := messages.length,
       decisions_detected := decisionsResult.items.length,
       decisions_new := decCounts.decisions_inserted,
       responsibilities_detected := responsibilitiesResult.items.length,
       responsibilities_new := respInserted })

/-- A message row as sync.ts step 3 prepares it from a parsed message. -/
structure NewMessageRow where
  sender : String
  msg_ts : String
  text : String
  msg_sha256 : String
deriving Repr, DecidableEq

/-- One row of the messages upsert (`onConflict: "chat_id,msg_sha256",
ignoreDuplicates: true`): insert unless a row with this (chat, hash) is
already present. -/
def insertMessagesStep (chat_id : String) (st : DB × Nat)
    (r : NewMessageRow) : DB × Nat :=
  let (db, count) := st
  if db.messages.any
      (fun m => m.chat_id == chat_id && m.msg_sha256 == r.msg_sha256) then
    (db, count)
  else
    ({ db with
        messages := db.messages ++
          [{ id := db.nextId, chat_id := chat_id, sender := r.sender,
             msg_ts := r.msg_ts, text := r.text,
             msg_sha256 := r.msg_sha256 }],
        nextId := db.nextId + 1 },
     count + 1)

/-- Step 3 of `syncWhatsAppImport` from sync.ts: chunked idempotent insert of
the parsed messages; the returned count is the number of rows actually
inserted. -/
def insertMessages (db : DB) (chat_id : String) (rows : List NewMessageRow) :
    DB × Nat :=
  (chunkArray rows 500).foldl
    (fun st chunk => chunk.foldl (insertMessagesStep chat_id) st) (db, 0)

/-- One ingestion pass: sync the parsed messages into storage (sync.ts step
3), then run the analysis pipeline over the scope (orchestrate.ts), as
the import route does after parsing. -/
def ingestAndAnalyze (db : DB) (chat_id : String)
    (rows : List NewMessageRow) : DB × Nat × AnalysisResult :=
  let (db1, inserted) := insertMessages db chat_id rows
  let (db2, res) := runAnalysisPipeline db1 chat_id
  (db2, inserted, res)

/-- The natural-key uniqueness the backing store enforces (unique
constraints on (chat, thread key), (thread, version) and the responsibility
identity key — spec sections 5 and 6), stated over the model. -/
def WF (db : DB) : Bool :=
  pairwiseB
    (fun a b => !(a.chat_id == b.chat_id && a.thread_key == b.thread_key))
    db.threads &&
  pairwiseB
    (fun a b => !(a.thread_id == b.thread_id && a.version_no == b.version_no))
    db.decisions &&
  pairwiseB
    (fun a b => !(a.chat_id == b.chat_id && a.owner == b.owner &&
      a.task_text == b.task_text))
    db.responsibilities &&
  db.threads.all (fun t => t.id < db.nextId)

/-- Whether a (chat, fingerprint) message row is stored. -/
def msgPresent (db : DB) (chat_id h : String) : Bool :=
  db.messages.any (fun m => m.chat_id == chat_id && m.msg_sha256 == h)

/-- The state the decision persistence loop leaves behind for a candidate,
and what its skip path relies on: the thread for the candidate's slug
resolves uniquely, and a decision row with the candidate's version number
exists on that thread. -/
def decCovered (db : DB) (chat_id : String) (dec : DecisionItem) : Prop :=
  ∃ t, singleMatch db.threads
      (fun tr => tr.chat_id == chat_id &&
        tr.thread_key == slugify dec.title) = some t ∧
    ∃ d, singleMatch db.decisions
      (fun d => d.thread_id == t.id && d.version_no == dec.version) = some d

/-- The state the responsibility persistence loop leaves behind for a
candidate: a row with its (chat, owner, task text) identity key resolves
uniquely. -/
def respCovered (db : DB) (chat_id : String) (resp : ResponsibilityItem) :
    Prop :=
  ∃ r, singleMatch db.responsibilities
    (fun r => r.chat_id == chat_id && r.owner == resp.owner &&
      r.task_text == taskTextOf resp) = some r

-- ─── llm.ts output types ──────────────────────────────────────────────────────

/-- `LLMDecision` from llm.ts: a validated decision candidate produced by the
inference collaborator. -/
structure LLMDecision where
  thread_key : String
  title : String
  status : DecisionStatus
  confidence : Nat
  explanation : String
  decided_at : String
  evidence_hashes : List String
deriving Repr, DecidableEq

-- ─── llmMerge.ts ─────────────────────────────────────────────────────────────

/-- `STOP_WORDS` from llmMerge.ts. -/
def STOP_WORDS : List String :=
  ["the", "a", "an", "and", "or", "but", "in", "on", "at", "to", "for",
   "of", "with", "is", "was", "are", "were", "be", "been", "that", "this",
   "it", "its", "by", "from", "as", "into", "about", "than", "then", "we",
   "our", "all", "will", "has", "have"]

/-- `significantWords` from llmMerge.ts: lowercase, strip characters outside
`[a-z0-9\s]`, split on whitespace, keep words longer than two characters that
are not stop words; the JS `Set` is modelled by first-occurrence
deduplication. -/
def significantWords (title : String) : List String :=
  let cleaned := (jsToLower title).data.filter
    (fun c => ('a' ≤ c && c ≤ 'z') || ('0' ≤ c && c ≤ '9') || isJsSpace c)
  let words := (splitChars isJsSpace cleaned).map
    (fun l => (⟨l⟩ : String))
  dedupKeepFirst (words.filter
    (fun w => w.data.length > 2 && !STOP_WORDS.contains w))

/-- `titlesAreDuplicates` from llmMerge.ts: true when both significant-word
sets are nonempty and they share at least 65% of the smaller set.  The JS
floating-point comparison `overlap / min >= 0.65` is modelled with exact
rationals; the two agree for every set size a title can produce. -/
def titlesAreDuplicates (a b : String) : Bool :=
  let wa := significantWords a
  let wb := significantWords b
  if wa.length = 0 || wb.length = 0 then false
  else
    let overlap := wa.countP (fun w => wb.contains w)
    decide ((overlap : ℚ) / ((min wa.length wb.length : Nat) : ℚ) ≥ 65 / 100)

/-- The reverse map `msg_sha256 → deterministic decision id` built at the top
of `mergeDecisions`; a hash listed under several ids keeps the last. -/
def buildHashToDetId (evidenceByDecisionId : List (String × List String)) :
    List (String × String) :=
  evidenceByDecisionId.foldl
    (fun m p => p.2.foldl (fun m h => alistSet m h p.1) m) []

/-- The first evidence hash of the external candidate that resolves to a
deterministic id (`for (const h of llmDec.evidence_hashes) ... break`). -/
def firstHashMatch (m : List (String × String)) : List String → Option String
  | [] => none
  | h :: hs =>
      match alistGet m h with
      | some id => some id
      | none => firstHashMatch m hs

/-- The per-external-candidate step of `mergeDecisions`: enrich the matched
deterministic item (overwriting its quality fields and leaving its recorded
evidence untouched), or append a net-new item keyed by the external grouping
key. -/
def mergeEnrichStep (hashToDetId : List (String × String))
    (st : List (String × DecisionItem) × List (String × List String))
    (llmDec : LLMDecision) :
    List (String × DecisionItem) × List (String × List String) :=
  let (itemsById, evidenceById) := st
  let enrich (mid : String) (item : DecisionItem) :=
    (alistSet itemsById mid
      { item with
          title := llmDec.title,
          status := llmDec.status,
          confidence := llmDec.confidence,
          explanation := llmDec.explanation,
          timestamp := llmDec.decided_at,
          lastUpdated := llmDec.decided_at,
          thread_key := some llmDec.thread_key },
     evidenceById)
  let netNew : List (String × DecisionItem) × List (String × List String) :=
    let newId := decisionIdOf llmDec.thread_key
    if (alistGet itemsById newId).isSome then (itemsById, evidenceById)
    else
      (alistSet itemsById newId
        { id := newId,
          title := llmDec.title,
          version := 1,
          status := llmDec.status,
          confidence := llmDec.confidence,
          lastUpdated := llmDec.decided_at,
          explanation := llmDec.explanation,
          timestamp := llmDec.decided_at,
          thread_key := some llmDec.thread_key },
       alistSet evidenceById newId llmDec.evidence_hashes)
  match firstHashMatch hashToDetId llmDec.evidence_hashes with
  | some mid =>
      match alistGet itemsById mid with
      | some item => enrich mid item
      | none => netNew
  | none => netNew

/-- The grouping `byThreadKey` of the first deduplication pass: ids in
insertion order under `item.thread_key ?? id`. -/
def groupByThreadKey (itemsById : List (String × DecisionItem)) :
    List (String × List String) :=
  itemsById.foldl
    (fun m p =>
      let key := p.2.thread_key.getD p.1
      match alistGet m key with
      | some ids => alistSet m key (ids ++ [p.1])
      | none => alistSet m key [p.1]) []

/-- The confidence read `itemsById[id].confidence ?? 0` used by the
first-pass sort. -/
def confOf (itemsById : List (String × DecisionItem)) (id : String) : Nat :=
  ((alistGet itemsById id).map (fun i => i.confidence)).getD 0

/-- One group of the exact thread-key collapse: keep the highest-confidence
candidate (stable descending sort, so the first keeps ties) and give it the
union of the group's evidence. -/
def threadKeyDedupGroup
    (st : List (String × DecisionItem) × List (String × List String))
    (ids : List String) :
    List (String × DecisionItem) × List (String × List String) :=
  let (itemsById, evidenceById) := st
  if ids.length ≤ 1 then st
  else
    match stableSortBy
        (fun a b => decide (confOf itemsById b ≤ confOf itemsById a)) ids with
    | [] => st
    | winnerId :: losers =>
        let loserHashes := losers.foldl
          (fun acc l => acc ++ (alistGet evidenceById l).getD []) []
        let merged := dedupKeepFirst
          ((alistGet evidenceById winnerId).getD [] ++ loserHashes)
        let itemsById := losers.foldl (fun m l => alistDel m l) itemsById
        let evidenceById := losers.foldl (fun m l => alistDel m l)
          evidenceById
        (itemsById, alistSet evidenceById winnerId merged)

/-- The first (exact thread-key) deduplication pass of `mergeDecisions`. -/
def threadKeyDedup
    (st : List (String × DecisionItem) × List (String × List String)) :
    List (String × DecisionItem) × List (String × List String) :=
  (groupByThreadKey st.1).foldl
    (fun st p => threadKeyDedupGroup st p.2) st

/-- The inner (`j`) loop of the title-similarity pass, comparing `idA`
against each later id.  `none` models the uncaught `TypeError` the source
hits when `idA` was deleted as a loser earlier in this inner loop and a
later alive `idB` is still compared against it
(`itemsById[idA].title` with `itemsById[idA]` undefined). -/
def titleDedupInner (idA : String) :
    List String →
    List (String × DecisionItem) × List (String × List String) →
    Option (List (String × DecisionItem) × List (String × List String))
  | [], st => some st
  | idB :: rest, st =>
      let (itemsById, evidenceById) := st
      match alistGet itemsById idB with
      | none => titleDedupInner idA rest st
      | some itemB =>
          match alistGet itemsById idA with
          | none => none
          | some itemA =>
              if !titlesAreDuplicates itemA.title itemB.title then
                titleDedupInner idA rest st
              else
                let (winnerId, loserId) :=
                  if itemB.confidence ≤ itemA.confidence then (idA, idB)
                  else (idB, idA)
                let merged := dedupKeepFirst
                  ((alistGet evidenceById winnerId).getD [] ++
                    (alistGet evidenceById loserId).getD [])
                titleDedupInner idA rest
                  (alistDel itemsById loserId,
                   alistDel (alistSet evidenceById winnerId merged) loserId)

/-- The outer (`i`) loop of the title-similarity pass. -/
def titleDedupOuter :
    List String →
    List (String × DecisionItem) × List (String × List String) →
    Option (List (String × DecisionItem) × List (String × List String))
  | [], st => some st
  | idA :: rest, st =>
      if (alistGet st.1 idA).isSome then
        match titleDedupInner idA rest st with
        | some st' => titleDedupOuter rest st'
        | none => none
      else titleDedupOuter rest st

/-- The second (fuzzy title-similarity) deduplication pass of
`mergeDecisions`, over the ids alive after the first pass. -/
def titleDedupPass
    (st : List (String × DecisionItem) × List (String × List String)) :
    Option (List (String × DecisionItem) × List (String × List String)) :=
  titleDedupOuter (st.1.map (fun p => p.1)) st

/-- `mergeDecisions` from llmMerge.ts: evidence-hash matching and
enrichment, then the exact thread-key collapse, then the fuzzy
title-similarity collapse.  `none` models the uncaught exception described
at `titleDedupInner`. -/
def mergeDecisions (deterministic : ExtractDecisionsResult)
    (llm : List LLMDecision) : Option ExtractDecisionsResult :=
  if llm.isEmpty then some deterministic
  else
    let hashToDetId := buildHashToDetId deterministic.evidenceByDecisionId
    let itemsById := deterministic.items.foldl
      (fun m item => alistSet m item.id item) []
    let evidenceById := deterministic.evidenceByDecisionId
    let st := llm.foldl (mergeEnrichStep hashToDetId)
      (itemsById, evidenceById)
    let st := threadKeyDedup st
    match titleDedupPass st with
    | none => none
    | some (itemsById, evidenceById) =>
        some ⟨itemsById.map (fun p => p.2), evidenceById⟩

-- ─── Concrete scenario inputs used by the claim theorems ─────────────────────

/-- The empty store. -/
def emptyDB : DB := ⟨[], [], [], [], [], 0⟩

/-- A deterministic decision candidate with title "Use X" (as
extractDecisions would build it). -/
def decUseX : DecisionItem :=
  { id := decisionIdOf "Use X",
    title := "Use X",
    version := 1,
    status := .Final,
    confidence := 80,
    lastUpdated := "t",
    explanation := "e",
    timestamp := "t" }

/-- A responsibility candidate whose single evidence hash resolves to no
stored message. -/
def respT : ResponsibilityItem :=
  { id := respIdOf "T",
    title := "T",
    owner := "A",
    due := "",
    status := .Open,
    description := "",
    timestamp := "t",
    evidenceCount := 0 }

/-- The deterministic input of the merge scenario: one candidate whose
evidence is the single fingerprint "h1". -/
def detUseX : ExtractDecisionsResult :=
  { items := [decUseX],
    evidenceByDecisionId := [(decUseX.id, ["h1"])] }

/-- An external candidate sharing "h1" with `detUseX` and carrying the
additional fingerprint "h2". -/
def llmUseX : LLMDecision :=
  { thread_key := "use_x",
    title := "Use X richly",
    status := .Final,
    confidence := 90,
    explanation := "better",
    decided_at := "t2",
    evidence_hashes := ["h1", "h2"] }

/-- The result `mergeDecisions detUseX [llmUseX]` actually produces: the
matched item is enriched but its evidence set stays ["h1"]. -/
def mergedUseX : ExtractDecisionsResult :=
  { items := [{ id := decUseX.id,
                title := "Use X richly",
                version := 1,
                status := .Final,
                confidence := 90,
                lastUpdated := "t2",
                explanation := "better",
                timestamp := "t2",
                thread_key := some "use_x" }],
    evidenceByDecisionId := [(decUseX.id, ["h1"])] }

/-- A store already holding the thread for slug "use_x" and its version-1
row with outcome "old outcome". -/
def dbWithV1 : DB :=
  ⟨[], [⟨0, "c", "use_x"⟩],
   [⟨1, 0, 1, "Final", 80, "Use X", "old outcome", "t0"⟩], [], [], 2⟩

/-- A candidate for the same thread asserting a different outcome (and a
different status and title spelling). -/
def decUseXNew : DecisionItem :=
  { id := decisionIdOf "Use X!",
    title := "Use X!",
    version := 1,
    status := .Tentative,
    confidence := 60,
    lastUpdated := "t",
    explanation := "new outcome",
    timestamp := "t" }

/-- The first of two conflicting candidates for the thread "use_x". -/
def decConflictA : DecisionItem :=
  { id := decisionIdOf "Use X",
    title := "Use X",
    version := 1,
    status := .Tentative,
    confidence := 60,
    lastUpdated := "t",
    explanation := "go with X",
    timestamp := "t" }

/-- The second, contradicting candidate: same thread slug "use_x", opposite
outcome, higher confidence. -/
def decConflictB : DecisionItem :=
  { id := decisionIdOf "Use X!",
    title := "Use X!",
    version := 1,
    status := .Final,
    confidence := 80,
    lastUpdated := "t",
    explanation := "do not go with X",
    timestamp := "t" }

/-- The scenario message of claim C6. -/
def supabaseMsg : String := "We decided to go with Supabase for the database"

/-- A lower-confidence candidate titled "Choose the Supabase database". -/
def itemChoose : DecisionItem :=
  { decUseX with
      title := "Choose the Supabase database",
      confidence := 60 }

/-- A higher-confidence candidate titled "Supabase database migration". -/
def itemMigrate : DecisionItem :=
  { decUseX with
      title := "Supabase database migration",
      confidence := 90 }

/-- A concrete batch of parsed rows for exercising re-ingestion: one
decision-bearing message and one responsibility-bearing message. -/
def c4rows : List NewMessageRow :=
  [{ sender := "Angel",
     msg_ts := "2024-01-02T10:00:00.000Z",
     text := supabaseMsg,
     msg_sha256 := "hash-msg-1" },
   { sender := "Sandeep",
     msg_ts := "2024-01-02T10:05:00.000Z",
     text := "Sareena will handle the deployment",
     msg_sha256 := "hash-msg-2" }]

/-- Claim C1: for every run of the persistence pass, every persisted decision
and responsibility row has at least one resolvable evidence reference, and a
candidate with no resolvable fingerprint is dropped entirely.

The code does the opposite: `persistDecisions` inserts the decision row
before resolving evidence, so with an empty message store the decision row
is persisted and `decision_evidence` stays empty; `persistResponsibilities`
likewise inserts the responsibility row with a null `source_message_id` when
its hash resolves to nothing. -/
theorem c1_no_evidence_still_persisted :
    (persistDecisions emptyDB "c" [decUseX]
      [(decUseX.id, ["h1"])]).1.decisions.length = 1 ∧
    (persistDecisions emptyDB "c" [decUseX]
      [(decUseX.id, ["h1"])]).1.decision_evidence = [] ∧
    (persistResponsibilities emptyDB "c" [respT]
      [(respT.id, ["h1"])]).1.responsibilities =
      [{ chat_id := "c", owner := "A", task_text := "T", status := "Open",
         due_date := none, source_message_id := none }] := by
  decide

/-- Claim C2: when an external candidate shares an evidence fingerprint with
a deterministic one, the merged candidate's evidence set is a superset of
both evidence sets.

The enrichment step of `mergeDecisions` overwrites the matched item's
quality fields but never unions the external `evidence_hashes` into the
recorded evidence: merging `detUseX` (evidence ["h1"]) with `llmUseX`
(evidence ["h1", "h2"]) leaves evidence ["h1"], and "h2" appears in no
entry of the output. -/
theorem c2_merge_union_fails :
    mergeDecisions detUseX [llmUseX] = some mergedUseX ∧
    mergedUseX.evidenceByDecisionId.all
      (fun p => !p.2.contains "h2") = true := by
  decide

/-- Claim C3: the resolver creates a thread with version 1, appends version
N+1 when the observed outcome/title differs from the thread's latest
version, and no-ops when unchanged.

The code never appends N+1: every candidate carries version 1
(extractDecisions hard-codes `version: 1`), and `persistDecisions` skips
whenever a (thread, version 1) row exists, without ever comparing the
outcome or title.  Against `dbWithV1` (latest outcome "old outcome") the
changed candidate `decUseXNew` (outcome "new outcome") persists nothing:
the store is unchanged and no version-2 row appears. -/
theorem c3_no_version_bump :
    persistDecisions dbWithV1 "c" [decUseXNew] [(decUseXNew.id, ["h1"])] =
      (dbWithV1, ⟨0, 0, 0⟩) ∧
    (persistDecisions dbWithV1 "c" [decUseXNew]
      [(decUseXNew.id, ["h1"])]).1.decisions.countP
      (fun d => d.version_no == 2) = 0 := by
  decide

/-- Claim C5: mutually exclusive candidates for one thread in one pass make
the persisted record `conflicted` and flag it for manual review.

No such path exists: `DecisionStatus` has only the values "Final" and
"Tentative" (contracts.ts line 3), and when two conflicting candidates for
the thread "use_x" are persisted in one pass the first one's row simply
stands (here with status "Tentative") while the second is silently skipped
by the (thread, version) idempotency check — nothing is marked and there is
no review flag. -/
theorem c5_conflict_not_marked :
    (persistDecisions emptyDB "c" [decConflictA, decConflictB]
      [(decConflictA.id, ["h1"]), (decConflictB.id, ["h2"])]).1.decisions.map
      (fun d => d.status) = ["Tentative"] ∧
    (persistDecisions emptyDB "c" [decConflictA, decConflictB]
      [(decConflictA.id, ["h1"]), (decConflictB.id, ["h2"])]).1.decisions.all
      (fun d => d.status != "conflicted") = true ∧
    (∀ s : DecisionStatus, s.text = "Final" ∨ s.text = "Tentative") := by
  refine ⟨by decide, by decide, ?_⟩
  intro s
  cases s
  · exact Or.inl rfl
  · exact Or.inr rfl

/-- Every item the decision scan accumulates carries the fixed baseline
confidence of its tier: 80 for Final, 60 for Tentative. -/
lemma extractDecisionsGo_confidence (msgs : List MessageInput) :
    ∀ (seen : List String) (items : List DecisionItem)
      (evid : List (String × List String)),
    (∀ it ∈ items, it.confidence = if it.status = .Final then 80 else 60) →
    ∀ it ∈ (extractDecisionsGo seen items evid msgs).items,
      it.confidence = if it.status = .Final then 80 else 60 := by
  induction msgs with
  | nil =>
      intro seen items evid h it hit
      exact h it hit
  | cons msg rest ih =>
      intro seen items evid h
      simp only [extractDecisionsGo]
      split
      · exact ih _ _ _ h
      · split
        · exact ih _ _ _ h
        · refine ih _ _ _ ?_
          intro it hit
          rcases List.mem_append.mp hit with hold | hnew
          · exact h it hold
          · rcases List.mem_singleton.mp hnew with rfl
            rfl

/-- Claim C6: the single message "We decided to go with Supabase for the
database" (any sender, hash and timestamp) yields exactly one decision
candidate with status Final, confidence 80 and that message's fingerprint as
its only evidence; in general a final-tier trigger wins over the tentative
tier, and the fixed Final confidence (80) is strictly above the fixed
Tentative confidence (60). -/
theorem c6_final_scenario :
    (∀ A T H : String,
      extractDecisions [⟨A, supabaseMsg, H, T⟩] =
        ⟨[{ id := decisionIdOf supabaseMsg,
            title := supabaseMsg,
            version := 1,
            status := .Final,
            confidence := 80,
            lastUpdated := T,
            explanation :=
              "Decision based on: \"We decided to go with Supabase for the database\"",
            timestamp := T }],
         [(decisionIdOf supabaseMsg, [H])]⟩) ∧
    (∀ lower : String,
      DECISION_FINAL_TRIGGERS.any (fun t => includesStr lower t) = true →
      detectDecisionStatus lower = some .Final) ∧
    (∀ (msgs : List MessageInput) (i j : DecisionItem),
      i ∈ (extractDecisions msgs).items → j ∈ (extractDecisions msgs).items →
      i.status = .Final → j.status = .Tentative →
      i.confidence = 80 ∧ j.confidence = 60 ∧ j.confidence < i.confidence) := by
  refine ⟨?_, ?_, ?_⟩
  · intro A T H
    rfl
  · intro lower h
    simp only [detectDecisionStatus, h, if_true]
  · intro msgs i j hi hj hsi hsj
    have hci := extractDecisionsGo_confidence msgs [] [] []
      (by intro it hit; cases hit) i hi
    have hcj := extractDecisionsGo_confidence msgs [] [] []
      (by intro it hit; cases hit) j hj
    rw [hsi, if_pos rfl] at hci
    rw [hsj, if_neg (by simp)] at hcj
    omega

/-- Witness for C6 at a concrete sender, timestamp and hash, and a concrete
two-message pass containing one Final and one Tentative candidate. -/
theorem c6_final_scenario_witness :
    extractDecisions [⟨"alice", supabaseMsg, "h1", "T1"⟩] =
      ⟨[{ id := decisionIdOf supabaseMsg,
          title := supabaseMsg,
          version := 1,
          status := .Final,
          confidence := 80,
          lastUpdated := "T1",
          explanation :=
            "Decision based on: \"We decided to go with Supabase for the database\"",
          timestamp := "T1" }],
       [(decisionIdOf supabaseMsg, ["h1"])]⟩ := by
  exact c6_final_scenario.1 "alice" "T1" "h1"

/-- The fingerprint on normalized components, with the hash unfolded. -/
lemma computeMessageHash_data (t s m : String) :
    (computeMessageHash t s m).data =
      (collapseWs t).data ++ "|".data ++ (collapseWs s).data ++ "|".data ++
        (normalizeMessageText m).data := by
  simp only [computeMessageHash, generateHash, String.data_append,
    List.append_assoc]

/-- Claim C7: the fingerprint is a pure, run-independent function of the
three normalized components — equal normalized timestamp, sender and body
always give the same fingerprint — and changing any single one of the three
normalized components changes the fingerprint.

`generateHash` (src/lib/hash.ts, SHA-256) is not among the sources and is
spec-modelled as an injective encoding, so hash sensitivity here is exactly
sensitivity of the `nt|ns|nm` hash input. -/
theorem c7_fingerprint_determinism :
    (∀ t₁ s₁ m₁ t₂ s₂ m₂ : String,
      collapseWs t₁ = collapseWs t₂ → collapseWs s₁ = collapseWs s₂ →
      normalizeMessageText m₁ = normalizeMessageText m₂ →
      computeMessageHash t₁ s₁ m₁ = computeMessageHash t₂ s₂ m₂) ∧
    (∀ t₁ t₂ s m : String, collapseWs t₁ ≠ collapseWs t₂ →
      computeMessageHash t₁ s m ≠ computeMessageHash t₂ s m) ∧
    (∀ t s₁ s₂ m : String, collapseWs s₁ ≠ collapseWs s₂ →
      computeMessageHash t s₁ m ≠ computeMessageHash t s₂ m) ∧
    (∀ t s m₁ m₂ : String, normalizeMessageText m₁ ≠ normalizeMessageText m₂ →
      computeMessageHash t s m₁ ≠ computeMessageHash t s m₂) := by
  refine ⟨?_, ?_, ?_, ?_⟩
  · intro t₁ s₁ m₁ t₂ s₂ m₂ h1 h2 h3
    simp only [computeMessageHash, h1, h2, h3]
  · intro t₁ t₂ s m hne heq
    apply hne
    have h := congrArg String.data heq
    rw [computeMessageHash_data, computeMessageHash_data] at h
    simp only [← List.append_assoc] at h
    have h := List.append_cancel_right h
    have h := List.append_cancel_right h
    have h := List.append_cancel_right h
    have h := List.append_cancel_right h
    exact String.ext h
  · intro t s₁ s₂ m hne heq
    apply hne
    have h := congrArg String.data heq
    rw [computeMessageHash_data, computeMessageHash_data] at h
    simp only [← List.append_assoc] at h
    have h := List.append_cancel_right h
    have h := List.append_cancel_right h
    have h := List.append_cancel_left h
    exact String.ext h
  · intro t s m₁ m₂ hne heq
    apply hne
    have h := congrArg String.data heq
    rw [computeMessageHash_data, computeMessageHash_data] at h
    simp only [← List.append_assoc] at h
    have h := List.append_cancel_left h
    exact String.ext h

/-- Witness for C7: determinism across differently-spaced raw components
normalizing alike, and sensitivity for a change in each single component. -/
theorem c7_fingerprint_determinism_witness :
    (collapseWs "2024-01-01T00:00:00.000Z " = collapseWs "2024-01-01T00:00:00.000Z" ∧
      collapseWs "Ann  B" = collapseWs "Ann B" ∧
      normalizeMessageText "hi \r\n" = normalizeMessageText "hi" ∧
      computeMessageHash "2024-01-01T00:00:00.000Z " "Ann  B" "hi \r\n" =
        computeMessageHash "2024-01-01T00:00:00.000Z" "Ann B" "hi") ∧
    (collapseWs "t1" ≠ collapseWs "t2" ∧
      computeMessageHash "t1" "Ann" "hi" ≠ computeMessageHash "t2" "Ann" "hi") ∧
    (collapseWs "Ann" ≠ collapseWs "Bo" ∧
      computeMessageHash "t1" "Ann" "hi" ≠ computeMessageHash "t1" "Bo" "hi") ∧
    (normalizeMessageText "hi" ≠ normalizeMessageText "yo" ∧
      computeMessageHash "t1" "Ann" "hi" ≠ computeMessageHash "t1" "Ann" "yo") := by
  refine ⟨⟨by decide, by decide, by decide, ?_⟩, ⟨by decide, ?_⟩,
    ⟨by decide, ?_⟩, ⟨by decide, ?_⟩⟩
  · exact c7_fingerprint_determinism.1 _ _ _ _ _ _ (by decide) (by decide)
      (by decide)
  · exact c7_fingerprint_determinism.2.1 _ _ "Ann" "hi" (by decide)
  · exact c7_fingerprint_determinism.2.2.1 "t1" _ _ "hi" (by decide)
  · exact c7_fingerprint_determinism.2.2.2 "t1" "Ann" _ _ (by decide)

/-- Claim C8: for every parsed header date/time (three numeric date fields,
a numeric `H:MM` time, an optional AM/PM marker), the normalizer interprets
the time as 12-hour exactly when the marker is present — `12:xx am` becomes
hour 0 and `12:xx pm` stays hour 12, other pm hours gain 12 — and as
24-hour otherwise; and the two leading date fields are read day-first
exactly when the first exceeds 12, month-first otherwise, always yielding
the same canonical machine-independent `Date.UTC` argument tuple. -/
theorem c8_timestamp_rules
    (date time : String) (ampm : Option String)
    (d0 d1 d2 th tm : String) (p0 p1 y hh mm : Nat)
    (hdate : splitStr date (fun c => c == '/' || c == '.' || c == '-') =
      [d0, d1, d2])
    (hp0 : jsParseInt d0 = some p0) (hp1 : jsParseInt d1 = some p1)
    (hy : jsParseInt d2 = some y)
    (htime : splitStr time (fun c => c == ':') = [th, tm])
    (hhh : jsParseInt th = some hh) (hmm : jsParseInt tm = some mm) :
    parseTimestampToISO date time ampm =
      some { year := if y < 100 then (y : Int) + 2000 else (y : Int),
             monthIndex := (if p0 > 12 then (p1 : Int) else (p0 : Int)) - 1,
             day := if p0 > 12 then (p0 : Int) else (p1 : Int),
             hour :=
               match ampm with
               | none => (hh : Int)
               | some a =>
                   if a = "" then (hh : Int)
                   else if jsToLower a = "pm" then
                     (if hh = 12 then 12 else (hh : Int) + 12)
                   else (if hh = 12 then 0 else (hh : Int)),
             minute := (mm : Int) } := by
  simp only [parseTimestampToISO, hdate, htime, List.get?, jsParseIntOpt,
    hp0, hp1, hy, hhh, hmm, Option.bind_some, Option.some_bind]
  simp only [Option.pure_def, Option.some.injEq]
  have hyear : ((if y < 100 then y + 2000 else y : Nat) : Int) =
      if y < 100 then (y : Int) + 2000 else (y : Int) := by
    split <;> simp
  have hmonth : ((if p0 > 12 then p1 else p0 : Nat) : Int) =
      if p0 > 12 then (p1 : Int) else (p0 : Int) := by
    split <;> simp
  have hday : ((if p0 > 12 then p0 else p1 : Nat) : Int) =
      if p0 > 12 then (p0 : Int) else (p1 : Int) := by
    split <;> simp
  cases ampm with
  | none => simp [hyear, hmonth, hday]
  | some a =>
      by_cases ha : a = ""
      · simp [ha, hyear, hmonth, hday]
      · by_cases hpm : jsToLower a = "pm"
        · by_cases h12 : hh = 12
          · simp [ha, hpm, h12, hyear, hmonth, hday]
          · simp [ha, hpm, h12, hyear, hmonth, hday]
        · by_cases h12 : hh = 12
          · simp [ha, hpm, h12, hyear, hmonth, hday]
          · simp [ha, hpm, h12, hyear, hmonth, hday]

/-- Witness for C8: `13.2.24, 12:45 am` — day-first because 13 exceeds 12,
and `12:45 am` becomes hour 0 of day 13 February 2024. -/
theorem c8_timestamp_rules_witness :
    splitStr "13.2.24" (fun c => c == '/' || c == '.' || c == '-') =
      ["13", "2", "24"] ∧
    jsParseInt "13" = some 13 ∧ jsParseInt "2" = some 2 ∧
    jsParseInt "24" = some 24 ∧
    splitStr "12:45" (fun c => c == ':') = ["12", "45"] ∧
    jsParseInt "12" = some 12 ∧ jsParseInt "45" = some 45 ∧
    parseTimestampToISO "13.2.24" "12:45" (some "am") =
      some { year := 2024, monthIndex := 1, day := 13, hour := 0,
             minute := 45 } := by
  refine ⟨by decide, by decide, by decide, by decide, by decide, by decide,
    by decide, ?_⟩
  have h := c8_timestamp_rules "13.2.24" "12:45" (some "am") "13" "2" "24"
    "12" "45" 13 2 24 12 45 (by decide) (by decide) (by decide) (by decide)
    (by decide) (by decide) (by decide)
  simpa using h

/-- Claim C9: in the merger's second deduplication pass two surviving
candidates are collapsed exactly when their lowercased, stop-word-filtered
significant-word sets (words longer than two characters) overlap in at least
65% of the smaller set — sets that exist, i.e. are nonempty — and on
collapse the higher-confidence candidate survives (ties keep the earlier
one) with the union of both evidence sets. -/
theorem c9_fuzzy_title_collapse :
    (∀ a b : String, titlesAreDuplicates a b = true ↔
      (significantWords a ≠ [] ∧ significantWords b ≠ [] ∧
        65 * min (significantWords a).length (significantWords b).length ≤
          100 * (significantWords a).countP
            (fun w => (significantWords b).contains w))) ∧
    (∀ (a b : String) (iA iB : DecisionItem) (eA eB : List String),
      a ≠ b →
      titleDedupPass ([(a, iA), (b, iB)], [(a, eA), (b, eB)]) =
        some (if titlesAreDuplicates iA.title iB.title = true then
                (if iB.confidence ≤ iA.confidence then
                  ([(a, iA)], [(a, dedupKeepFirst (eA ++ eB))])
                 else ([(b, iB)], [(b, dedupKeepFirst (eB ++ eA))]))
              else ([(a, iA), (b, iB)], [(a, eA), (b, eB)]))) := by
  constructor
  · intro a b
    by_cases ha : significantWords a = []
    · simp [titlesAreDuplicates, ha]
    · by_cases hb : significantWords b = []
      · simp [titlesAreDuplicates, hb]
      · have hla : (significantWords a).length ≠ 0 := by
          simpa [List.length_eq_zero] using ha
        have hlb : (significantWords b).length ≠ 0 := by
          simpa [List.length_eq_zero] using hb
        have hmin : 0 < min (significantWords a).length
            (significantWords b).length := by
          omega
        have hminq : (0 : ℚ) <
            ((min (significantWords a).length
              (significantWords b).length : Nat) : ℚ) := by
          exact_mod_cast hmin
        simp only [titlesAreDuplicates, hla, hlb, decide_False,
          Bool.or_self, Bool.false_eq_true, if_false, decide_eq_true_iff,
          ha, hb, ne_eq, not_false_iff, true_and]
        rw [ge_iff_le, div_le_div_iff₀ (by norm_num) hminq]
        constructor
        · intro h
          have : (65 : ℚ) *
              ((min (significantWords a).length
                (significantWords b).length : Nat) : ℚ) ≤
              100 * (((significantWords a).countP
                (fun w => (significantWords b).contains w) : Nat) : ℚ) := by
            linarith
          exact_mod_cast this
        · intro h
          have : (65 : ℚ) *
              ((min (significantWords a).length
                (significantWords b).length : Nat) : ℚ) ≤
              100 * (((significantWords a).countP
                (fun w => (significantWords b).contains w) : Nat) : ℚ) := by
            exact_mod_cast h
          linarith
  · intro a b iA iB eA eB hne
    have hab : (a == b) = false := by
      exact beq_eq_false_iff_ne.mpr hne
    have hba : (b == a) = false := by
      exact beq_eq_false_iff_ne.mpr (Ne.symm hne)
    by_cases hdup : titlesAreDuplicates iA.title iB.title = true
    · by_cases hconf : iB.confidence ≤ iA.confidence
      · simp [titleDedupPass, titleDedupOuter, titleDedupInner, alistGet,
          alistDel, alistSet, hab, hba, hdup, hconf, bne, hne, Ne.symm hne]
      · simp [titleDedupPass, titleDedupOuter, titleDedupInner, alistGet,
          alistDel, alistSet, hab, hba, hdup, hconf, bne, hne, Ne.symm hne]
    · simp [titleDedupPass, titleDedupOuter, titleDedupInner, alistGet,
        alistDel, alistSet, hab, hba, hdup, bne, hne, Ne.symm hne]

/-- Witness for C9: two candidates whose titles share two of the smaller
set's two significant words (100% ≥ 65%) collapse into the
higher-confidence one with unioned evidence; the characterization is
checked on the same pair of titles. -/
theorem c9_fuzzy_title_collapse_witness :
    (titlesAreDuplicates "Choose the Supabase database"
        "Supabase database migration" = true ↔ True) ∧
    ("dec_1" : String) ≠ "dec_2" ∧
    titleDedupPass
      ([("dec_1", itemChoose), ("dec_2", itemMigrate)],
       [("dec_1", ["h1"]), ("dec_2", ["h2", "h1"])]) =
      some ([("dec_2", itemMigrate)], [("dec_2", ["h2", "h1"])]) := by
  have hd : titlesAreDuplicates "Choose the Supabase database"
      "Supabase database migration" = true :=
    (c9_fuzzy_title_collapse.1 "Choose the Supabase database"
      "Supabase database migration").mpr ⟨by decide, by decide, by decide⟩
  refine ⟨⟨fun _ => trivial, fun _ => hd⟩, by decide, ?_⟩
  have h := c9_fuzzy_title_collapse.2 "dec_1" "dec_2"
    itemChoose itemMigrate ["h1"] ["h2", "h1"] (by decide)
  rw [h]
  have hd2 : titlesAreDuplicates itemChoose.title itemMigrate.title = true :=
    hd
  rw [if_pos hd2, if_neg (by decide)]
  have hu : dedupKeepFirst (["h2", "h1"] ++ ["h1"]) = ["h2", "h1"] := by
    decide
  rw [hu]

/-- Lookup distributes over appending entries. -/
lemma alistGet_append {α : Type} (xs ys : List (String × α)) (id : String) :
    alistGet (xs ++ ys) id =
      match alistGet xs id with
      | some v => some v
      | none => alistGet ys id := by
  simp only [alistGet, List.find?_append]
  cases h : List.find? (fun p => p.1 == id) xs <;> simp [Option.or, h]

/-- Lookup in a one-entry record. -/
lemma alistGet_single {α : Type} (k id : String) (v : α) :
    alistGet [(k, v)] id = if k = id then some v else none := by
  by_cases h : k = id
  · simp [alistGet, List.find?, h]
  · simp [alistGet, List.find?, h, beq_eq_false_iff_ne.mpr h]

/-- The decision scan only appends evidence entries. -/
lemma extractDecisionsGo_evid_prefix (msgs : List MessageInput) :
    ∀ (seen : List String) (items : List DecisionItem)
      (evid : List (String × List String)),
    ∃ tail, (extractDecisionsGo seen items evid msgs).evidenceByDecisionId =
      evid ++ tail := by
  induction msgs with
  | nil => intro seen items evid; exact ⟨[], by simp [extractDecisionsGo]⟩
  | cons msg rest ih =>
      intro seen items evid
      simp only [extractDecisionsGo]
      split
      · exact ih seen items evid
      · split
        · exact ih seen items evid
        · rcases ih (seen ++ [decisionIdOf (buildDecisionTitle msg)])
            (items ++ [_]) (evid ++
              [(decisionIdOf (buildDecisionTitle msg),
                [msg.message_hash])]) with ⟨tail, htail⟩
          exact ⟨(decisionIdOf (buildDecisionTitle msg),
            [msg.message_hash]) :: tail, by rw [htail]; simp⟩

/-- Where a decision-evidence entry can come from: it was already in the
accumulator, or it is the singleton fingerprint of the first message of the
remaining scan that triggers and derives this id. -/
lemma extractDecisionsGo_evid_lookup (msgs : List MessageInput) :
    ∀ (seen : List String) (items : List DecisionItem)
      (evid : List (String × List String)),
    (∀ id, id ∈ seen ↔ (alistGet evid id).isSome = true) →
    ∀ (id : String) (hs : List String),
    alistGet (extractDecisionsGo seen items evid msgs).evidenceByDecisionId
      id = some hs →
    alistGet evid id = some hs ∨
      (alistGet evid id = none ∧
        ∃ m, msgs.find? (fun m =>
          (detectDecisionStatus (jsToLower m.message_text)).isSome &&
          (decisionIdOf (buildDecisionTitle m) == id)) = some m ∧
          hs = [m.message_hash]) := by
  induction msgs with
  | nil =>
      intro seen items evid hinv id hs h
      exact Or.inl h
  | cons msg rest ih =>
      intro seen items evid hinv id hs
      simp only [extractDecisionsGo]
      split
      · rename_i hdet
        intro h
        rcases ih seen items evid hinv id hs h with hl | ⟨hn, m, hm, hhs⟩
        · exact Or.inl hl
        · refine Or.inr ⟨hn, m, ?_, hhs⟩
          simp [List.find?, hdet, hm]
      · rename_i status hdet
        split
        · rename_i hseen
          intro h
          rcases ih seen items evid hinv id hs h with hl | ⟨hn, m, hm, hhs⟩
          · exact Or.inl hl
          · refine Or.inr ⟨hn, m, ?_, hhs⟩
            have hne : decisionIdOf (buildDecisionTitle msg) ≠ id := by
              intro heq
              have : id ∈ seen := by
                rw [← heq]
                simpa using hseen
              have := (hinv id).mp this
              rw [hn] at this
              simp at this
            simp [List.find?, hdet, beq_eq_false_iff_ne.mpr hne, hm]
        · rename_i hseen
          intro h
          have hid_m := decisionIdOf (buildDecisionTitle msg)
          have hnotmem : decisionIdOf (buildDecisionTitle msg) ∉ seen := by
            intro hmem
            exact hseen (by simpa using hmem)
          have hnone : alistGet evid (decisionIdOf (buildDecisionTitle msg)) =
              none := by
            cases hx : alistGet evid (decisionIdOf (buildDecisionTitle msg))
            · rfl
            · exact absurd ((hinv _).mpr (by simp [hx])) hnotmem
          have hinv' : ∀ id', id' ∈
              (seen ++ [decisionIdOf (buildDecisionTitle msg)]) ↔
              (alistGet (evid ++ [(decisionIdOf (buildDecisionTitle msg),
                [msg.message_hash])]) id').isSome = true := by
            intro id'
            rw [alistGet_append]
            constructor
            · intro hmem
              rcases List.mem_append.mp hmem with h1 | h2
              · have := (hinv id').mp h1
                cases hx : alistGet evid id'
                · rw [hx] at this; simp at this
                · simp
              · rcases List.mem_singleton.mp h2 with rfl
                rw [hnone, alistGet_single, if_pos rfl]
                simp
            · intro hsome
              cases hx : alistGet evid id'
              · rw [hx] at hsome
                simp only at hsome
                rw [alistGet_single] at hsome
                by_cases he : decisionIdOf (buildDecisionTitle msg) = id'
                · exact List.mem_append.mpr (Or.inr (by simp [he]))
                · rw [if_neg he] at hsome; simp at hsome
              · exact List.mem_append.mpr
                  (Or.inl ((hinv id').mpr (by simp [hx])))
          rcases ih _ _ _ hinv' id hs h with hl | ⟨hn, m, hm, hhs⟩
          · rw [alistGet_append] at hl
            cases hx : alistGet evid id
            · rw [hx] at hl
              simp only at hl
              rw [alistGet_single] at hl
              by_cases he : decisionIdOf (buildDecisionTitle msg) = id
              · rw [if_pos he] at hl
                refine Or.inr ⟨rfl, msg, ?_, by
                  cases hl; rfl⟩
                simp [List.find?, hdet, beq_iff_eq.mpr he]
              · rw [if_neg he] at hl; cases hl
            · rw [hx] at hl
              simp only at hl
              cases hl
              exact Or.inl rfl
          · rw [alistGet_append] at hn
            cases hx : alistGet evid id
            · rw [hx] at hn
              simp only at hn
              rw [alistGet_single] at hn
              have hne : decisionIdOf (buildDecisionTitle msg) ≠ id := by
                intro he
                rw [if_pos he] at hn; cases hn
              refine Or.inr ⟨rfl, m, ?_, hhs⟩
              simp [List.find?, hdet, beq_eq_false_iff_ne.mpr hne, hm]
            · rw [hx] at hn
              simp only at hn
              cases hn

/-- Extending the seen-set/evidence-record invariant by one fresh id. -/
lemma seenEvidInv_extend (seen : List String)
    (evid : List (String × List String)) (idm : String) (v : List String)
    (hinv : ∀ id, id ∈ seen ↔ (alistGet evid id).isSome = true)
    (hfresh : idm ∉ seen) :
    ∀ id', id' ∈ seen ++ [idm] ↔
      (alistGet (evid ++ [(idm, v)]) id').isSome = true := by
  have hnone : alistGet evid idm = none := by
    cases hx : alistGet evid idm
    · rfl
    · exact absurd ((hinv _).mpr (by simp [hx])) hfresh
  intro id'
  rw [alistGet_append]
  constructor
  · intro hmem
    rcases List.mem_append.mp hmem with h1 | h2
    · have := (hinv id').mp h1
      cases hx : alistGet evid id'
      · rw [hx] at this; simp at this
      · simp
    · rcases List.mem_singleton.mp h2 with rfl
      rw [hnone, alistGet_single, if_pos rfl]
      simp
  · intro hsome
    cases hx : alistGet evid id'
    · rw [hx] at hsome
      simp only at hsome
      rw [alistGet_single] at hsome
      by_cases he : idm = id'
      · exact List.mem_append.mpr (Or.inr (by simp [he]))
      · rw [if_neg he] at hsome; simp at hsome
    · exact List.mem_append.mpr (Or.inl ((hinv id').mpr (by simp [hx])))

/-- Every item the decision scan returns has an entry in the returned
evidence record. -/
lemma extractDecisionsGo_items_evid (msgs : List MessageInput) :
    ∀ (seen : List String) (items : List DecisionItem)
      (evid : List (String × List String)),
    (∀ id, id ∈ seen ↔ (alistGet evid id).isSome = true) →
    (∀ item ∈ items, (alistGet evid item.id).isSome = true) →
    ∀ item ∈ (extractDecisionsGo seen items evid msgs).items,
      (alistGet
        (extractDecisionsGo seen items evid msgs).evidenceByDecisionId
        item.id).isSome = true := by
  induction msgs with
  | nil =>
      intro seen items evid hinv hitems
      exact hitems
  | cons msg rest ih =>
      intro seen items evid hinv hitems
      simp only [extractDecisionsGo]
      split
      · exact ih seen items evid hinv hitems
      · split
        · exact ih seen items evid hinv hitems
        · rename_i status hdet hseen
          have hfresh : decisionIdOf (buildDecisionTitle msg) ∉ seen := by
            intro hmem
            exact hseen (by simpa using hmem)
          refine ih _ _ _
            (seenEvidInv_extend seen evid _ [msg.message_hash] hinv hfresh)
            ?_
          intro item hitem
          rw [alistGet_append]
          rcases List.mem_append.mp hitem with hold | hnew
          · have := hitems item hold
            cases hx : alistGet evid item.id
            · rw [hx] at this; simp at this
            · simp
          · rcases List.mem_singleton.mp hnew with rfl
            have : alistGet evid (decisionIdOf (buildDecisionTitle msg)) =
                none := by
              cases hx : alistGet evid (decisionIdOf (buildDecisionTitle msg))
              · rfl
              · exact absurd ((hinv _).mpr (by simp [hx])) hfresh
            simp only [this, alistGet_single, if_pos rfl]
            simp

/-- The responsibility scan only appends evidence entries. -/
lemma extractResponsibilitiesGo_evid_prefix (msgs : List MessageInput) :
    ∀ (seen : List String) (items : List ResponsibilityItem)
      (evid : List (String × List String)),
    ∃ tail,
      (extractResponsibilitiesGo seen items evid
        msgs).evidenceByResponsibilityId = evid ++ tail := by
  induction msgs with
  | nil => intro seen items evid; exact ⟨[], by simp [extractResponsibilitiesGo]⟩
  | cons msg rest ih =>
      intro seen items evid
      simp only [extractResponsibilitiesGo]
      split
      · split
        · exact ih seen items evid
        · rcases ih (seen ++ [respIdOf (buildResponsibilityTitle msg)])
            (items ++ [_]) (evid ++
              [(respIdOf (buildResponsibilityTitle msg),
                [msg.message_hash])]) with ⟨tail, htail⟩
          exact ⟨(respIdOf (buildResponsibilityTitle msg),
            [msg.message_hash]) :: tail, by rw [htail]; simp⟩
      · exact ih seen items evid

/-- Where a responsibility-evidence entry can come from. -/
lemma extractResponsibilitiesGo_evid_lookup (msgs : List MessageInput) :
    ∀ (seen : List String) (items : List ResponsibilityItem)
      (evid : List (String × List String)),
    (∀ id, id ∈ seen ↔ (alistGet evid id).isSome = true) →
    ∀ (id : String) (hs : List String),
    alistGet
      (extractResponsibilitiesGo seen items evid
        msgs).evidenceByResponsibilityId id = some hs →
    alistGet evid id = some hs ∨
      (alistGet evid id = none ∧
        ∃ m, msgs.find? (fun m =>
          detectResponsibilityTrigger (jsToLower m.message_text)
            m.message_text &&
          (respIdOf (buildResponsibilityTitle m) == id)) = some m ∧
          hs = [m.message_hash]) := by
  induction msgs with
  | nil =>
      intro seen items evid hinv id hs h
      exact Or.inl h
  | cons msg rest ih =>
      intro seen items evid hinv id hs
      simp only [extractResponsibilitiesGo]
      split
      · rename_i hdet
        split
        · rename_i hseen
          intro h
          rcases ih seen items evid hinv id hs h with hl | ⟨hn, m, hm, hhs⟩
          · exact Or.inl hl
          · refine Or.inr ⟨hn, m, ?_, hhs⟩
            have hne : respIdOf (buildResponsibilityTitle msg) ≠ id := by
              intro heq
              have : id ∈ seen := by
                rw [← heq]
                simpa using hseen
              have := (hinv id).mp this
              rw [hn] at this
              simp at this
            simp [List.find?, hdet, beq_eq_false_iff_ne.mpr hne, hm]
        · rename_i hseen
          intro h
          have hfresh : respIdOf (buildResponsibilityTitle msg) ∉ seen := by
            intro hmem
            exact hseen (by simpa using hmem)
          have hnone : alistGet evid (respIdOf (buildResponsibilityTitle msg))
              = none := by
            cases hx : alistGet evid (respIdOf (buildResponsibilityTitle msg))
            · rfl
            · exact absurd ((hinv _).mpr (by simp [hx])) hfresh
          rcases ih _ _ _
            (seenEvidInv_extend seen evid _ [msg.message_hash] hinv hfresh)
            id hs h with hl | ⟨hn, m, hm, hhs⟩
          · rw [alistGet_append] at hl
            cases hx : alistGet evid id
            · rw [hx] at hl
              simp only at hl
              rw [alistGet_single] at hl
              by_cases he : respIdOf (buildResponsibilityTitle msg) = id
              · rw [if_pos he] at hl
                refine Or.inr ⟨rfl, msg, ?_, by cases hl; rfl⟩
                simp [List.find?, hdet, beq_iff_eq.mpr he]
              · rw [if_neg he] at hl; cases hl
            · rw [hx] at hl
              simp only at hl
              cases hl
              exact Or.inl rfl
          · rw [alistGet_append] at hn
            cases hx : alistGet evid id
            · rw [hx] at hn
              simp only at hn
              rw [alistGet_single] at hn
              have hne : respIdOf (buildResponsibilityTitle msg) ≠ id := by
                intro he
                rw [if_pos he] at hn; cases hn
              refine Or.inr ⟨rfl, m, ?_, hhs⟩
              simp [List.find?, hdet, beq_eq_false_iff_ne.mpr hne, hm]
            · rw [hx] at hn
              simp only at hn
              cases hn
      · rename_i hdet
        intro h
        rcases ih seen items evid hinv id hs h with hl | ⟨hn, m, hm, hhs⟩
        · exact Or.inl hl
        · refine Or.inr ⟨hn, m, ?_, hhs⟩
          simp [List.find?, hdet, hm]

/-- Every item the responsibility scan returns has an entry in the returned
evidence record. -/
lemma extractResponsibilitiesGo_items_evid (msgs : List MessageInput) :
    ∀ (seen : List String) (items : List ResponsibilityItem)
      (evid : List (String × List String)),
    (∀ id, id ∈ seen ↔ (alistGet evid id).isSome = true) →
    (∀ item ∈ items, (alistGet evid item.id).isSome = true) →
    ∀ item ∈ (extractResponsibilitiesGo seen items evid msgs).items,
      (alistGet
        (extractResponsibilitiesGo seen items evid
          msgs).evidenceByResponsibilityId item.id).isSome = true := by
  induction msgs with
  | nil =>
      intro seen items evid hinv hitems
      exact hitems
  | cons msg rest ih =>
      intro seen items evid hinv hitems
      simp only [extractResponsibilitiesGo]
      split
      · split
        · exact ih seen items evid hinv hitems
        · rename_i hdet hseen
          have hfresh : respIdOf (buildResponsibilityTitle msg) ∉ seen := by
            intro hmem
            exact hseen (by simpa using hmem)
          refine ih _ _ _
            (seenEvidInv_extend seen evid _ [msg.message_hash] hinv hfresh)
            ?_
          intro item hitem
          rw [alistGet_append]
          rcases List.mem_append.mp hitem with hold | hnew
          · have := hitems item hold
            cases hx : alistGet evid item.id
            · rw [hx] at this; simp at this
            · simp
          · rcases List.mem_singleton.mp hnew with rfl
            have : alistGet evid (respIdOf (buildResponsibilityTitle msg)) =
                none := by
              cases hx : alistGet evid
                (respIdOf (buildResponsibilityTitle msg))
              · rfl
              · exact absurd ((hinv _).mpr (by simp [hx])) hfresh
            simp only [this, alistGet_single, if_pos rfl]
            simp
      · exact ih seen items evid hinv hitems

/-- Claim C10: every candidate either extractor returns carries exactly one
evidence fingerprint, namely the hash of the first message of the pass that
triggers and derives that candidate's title (ids are injective encodings of
titles, so "derives this id" and "produces this title" coincide); later
messages deriving the same title are skipped and their fingerprints
discarded. -/
theorem c10_single_evidence_first_producer :
    (∀ (msgs : List MessageInput) (id : String) (hs : List String),
      alistGet (extractDecisions msgs).evidenceByDecisionId id = some hs →
      ∃ m, msgs.find? (fun m =>
        (detectDecisionStatus (jsToLower m.message_text)).isSome &&
        (decisionIdOf (buildDecisionTitle m) == id)) = some m ∧
        hs = [m.message_hash]) ∧
    (∀ (msgs : List MessageInput) (item : DecisionItem),
      item ∈ (extractDecisions msgs).items →
      (alistGet (extractDecisions msgs).evidenceByDecisionId
        item.id).isSome = true) ∧
    (∀ (msgs : List MessageInput) (id : String) (hs : List String),
      alistGet (extractResponsibilities msgs).evidenceByResponsibilityId id =
        some hs →
      ∃ m, msgs.find? (fun m =>
        detectResponsibilityTrigger (jsToLower m.message_text)
          m.message_text &&
        (respIdOf (buildResponsibilityTitle m) == id)) = some m ∧
        hs = [m.message_hash]) ∧
    (∀ (msgs : List MessageInput) (item : ResponsibilityItem),
      item ∈ (extractResponsibilities msgs).items →
      (alistGet (extractResponsibilities msgs).evidenceByResponsibilityId
        item.id).isSome = true) := by
  have hinv0 : ∀ id : String, id ∈ ([] : List String) ↔
      (alistGet ([] : List (String × List String)) id).isSome = true := by
    intro id
    simp [alistGet]
  refine ⟨?_, ?_, ?_, ?_⟩
  · intro msgs id hs h
    rcases extractDecisionsGo_evid_lookup msgs [] [] [] hinv0 id hs h with
      hl | ⟨_, m, hm, hhs⟩
    · simp [alistGet] at hl
    · exact ⟨m, hm, hhs⟩
  · intro msgs item hitem
    exact extractDecisionsGo_items_evid msgs [] [] [] hinv0
      (by intro it hit; cases hit) item hitem
  · intro msgs id hs h
    rcases extractResponsibilitiesGo_evid_lookup msgs [] [] [] hinv0 id hs h
      with hl | ⟨_, m, hm, hhs⟩
    · simp [alistGet] at hl
    · exact ⟨m, hm, hhs⟩
  · intro msgs item hitem
    exact extractResponsibilitiesGo_items_evid msgs [] [] [] hinv0
      (by intro it hit; cases hit) item hitem

/-- Witness for C10: two messages with the same first line "we decided x"
but different fingerprints — the candidate's evidence is exactly the first
message's hash, the second hash is discarded — plus a responsibility
message. -/
theorem c10_single_evidence_first_producer_witness :
    (alistGet (extractDecisions
        [⟨"A", "we decided x", "h1", "t1"⟩,
         ⟨"B", "we decided x", "h2", "t2"⟩]).evidenceByDecisionId
      (decisionIdOf "we decided x") = some ["h1"]) ∧
    (∃ m, [(⟨"A", "we decided x", "h1", "t1"⟩ : MessageInput),
         ⟨"B", "we decided x", "h2", "t2"⟩].find? (fun m =>
        (detectDecisionStatus (jsToLower m.message_text)).isSome &&
        (decisionIdOf (buildDecisionTitle m) ==
          decisionIdOf "we decided x")) = some m ∧
        ["h1"] = [m.message_hash]) ∧
    (alistGet (extractResponsibilities
        [⟨"B", "I will send it", "h3", "t3"⟩]).evidenceByResponsibilityId
      (respIdOf "I will send it") = some ["h3"]) ∧
    (∃ m, [(⟨"B", "I will send it", "h3", "t3"⟩ : MessageInput)].find?
        (fun m => detectResponsibilityTrigger (jsToLower m.message_text)
          m.message_text &&
          (respIdOf (buildResponsibilityTitle m) ==
            respIdOf "I will send it")) = some m ∧
        ["h3"] = [m.message_hash]) := by
  refine ⟨by decide, ?_, by decide, ?_⟩
  · exact c10_single_evidence_first_producer.1
      [⟨"A", "we decided x", "h1", "t1"⟩, ⟨"B", "we decided x", "h2", "t2"⟩]
      (decisionIdOf "we decided x") ["h1"] (by decide)
  · exact c10_single_evidence_first_producer.2.2.1
      [⟨"B", "I will send it", "h3", "t3"⟩]
      (respIdOf "I will send it") ["h3"] (by decide)

/-- A fold whose step preserves an observation preserves it overall. -/
lemma foldl_pres {α β γ : Type} (f : β → α → β) (g : β → γ)
    (h : ∀ st a, g (f st a) = g st) :
    ∀ (l : List α) (st : β), g (l.foldl f st) = g st := by
  intro l
  induction l with
  | nil => intro st; rfl
  | cons a l ih => intro st; rw [List.foldl_cons, ih, h]

/-- Appending one element to a pairwise-distinct list. -/
lemma pairwiseB_append_single {α : Type} (q : α → α → Bool) (l : List α)
    (x : α) :
    pairwiseB q (l ++ [x]) = true ↔
      (pairwiseB q l = true ∧ ∀ y ∈ l, q y x = true) := by
  induction l with
  | nil => simp [pairwiseB]
  | cons z l ih =>
      simp only [List.cons_append, pairwiseB, List.append_eq,
        List.all_append, Bool.and_eq_true, List.all_eq_true, ih,
        List.all_cons, List.all_nil, Bool.and_true, List.mem_cons]
      constructor
      · rintro ⟨⟨h1, h2⟩, h3, h4⟩
        refine ⟨⟨h1, h3⟩, ?_⟩
        rintro y (rfl | hy)
        · exact h2
        · exact h4 y hy
      · rintro ⟨⟨h1, h3⟩, h4⟩
        exact ⟨⟨h1, h4 z (Or.inl rfl)⟩, h3,
          fun y hy => h4 y (Or.inr hy)⟩

/-- A key-uniqueness pairwise invariant bounds how many rows can match a
fixed key. -/
lemma filter_le_one_of_pairwiseB {α : Type} (q : α → α → Bool)
    (p : α → Bool)
    (hcompat : ∀ a b, p a = true → p b = true → q a b = false) :
    ∀ l : List α, pairwiseB q l = true → (l.filter p).length ≤ 1 := by
  intro l
  induction l with
  | nil => simp
  | cons x xs ih =>
      intro hp
      simp only [pairwiseB, Bool.and_eq_true, List.all_eq_true] at hp
      by_cases hx : p x = true
      · have hnil : xs.filter p = [] := by
          rw [List.filter_eq_nil_iff]
          intro y hy hpy
          have hq := hp.1 y hy
          rw [hcompat x y hx hpy] at hq
          cases hq
        simp [List.filter_cons, hx, hnil]
      · have hx' : p x = false := by
          cases h : p x
          · rfl
          · exact absurd h hx
        simp only [List.filter_cons, hx', if_neg]
        exact ih hp.2

/-- `maybeSingle` returns a row exactly when the filter is that singleton. -/
lemma singleMatch_some_iff {α : Type} (l : List α) (p : α → Bool) (x : α) :
    singleMatch l p = some x ↔ l.filter p = [x] := by
  unfold singleMatch
  cases h : l.filter p with
  | nil => simp
  | cons y ys =>
      cases ys with
      | nil => simp
      | cons z zs => simp

/-- Under the uniqueness bound, a null `maybeSingle` means no row matches. -/
lemma singleMatch_none_eq_nil {α : Type} (l : List α) (p : α → Bool)
    (hle : (l.filter p).length ≤ 1) (hn : singleMatch l p = none) :
    l.filter p = [] := by
  unfold singleMatch at hn
  cases h : l.filter p with
  | nil => rfl
  | cons y ys =>
      cases ys with
      | nil => rw [h] at hn; cases hn
      | cons z zs => rw [h] at hle; simp at hle

/-- Inserting the first matching row makes `maybeSingle` find it. -/
lemma singleMatch_append_pos {α : Type} (l : List α) (p : α → Bool) (x : α)
    (hnil : l.filter p = []) (hx : p x = true) :
    singleMatch (l ++ [x]) p = some x := by
  unfold singleMatch
  rw [List.filter_append, hnil, List.filter_cons, if_pos hx]
  rfl

/-- Inserting a non-matching row leaves `maybeSingle` unchanged. -/
lemma singleMatch_append_neg {α : Type} (l : List α) (p : α → Bool) (x : α)
    (hx : p x = false) :
    singleMatch (l ++ [x]) p = singleMatch l p := by
  unfold singleMatch
  rw [List.filter_append, List.filter_cons, if_neg (by simp [hx])]
  simp

/-- A chunked fold is the plain fold (the chunks concatenate back to the
original list). -/
lemma chunkArrayGo_foldl {α β : Type} (f : β → α → β) :
    ∀ (fuel : Nat) (l : List α) (n : Nat) (st : β), l.length ≤ fuel →
    0 < n →
    (chunkArrayGo fuel l n).foldl (fun s c => c.foldl f s) st =
      l.foldl f st := by
  intro fuel
  induction fuel with
  | zero =>
      intro l n st hl _
      rw [List.eq_nil_of_length_eq_zero (Nat.le_zero.mp hl)]
      rfl
  | succ fuel ih =>
      intro l n st hl hn
      cases l with
      | nil => rfl
      | cons a arr =>
          simp only [chunkArrayGo]
          rw [if_neg (Nat.pos_iff_ne_zero.mp hn)]
          rw [List.foldl_cons]
          rw [ih ((a :: arr).drop n) n _
            (by simp only [List.length_drop, List.length_cons] at hl ⊢; omega)
            hn]
          rw [← List.foldl_append, List.take_append_drop]

/-- The chunked message upsert is the row-by-row fold. -/
lemma insertMessages_eq_foldl (db : DB) (chat_id : String)
    (rows : List NewMessageRow) :
    insertMessages db chat_id rows =
      rows.foldl (insertMessagesStep chat_id) (db, 0) := by
  unfold insertMessages chunkArray
  exact chunkArrayGo_foldl _ _ _ _ _ le_rfl (by norm_num)

/-- Unpacked form of the storage uniqueness invariant. -/
lemma WF_iff (db : DB) :
    WF db = true ↔
      (pairwiseB (fun a b =>
          !(a.chat_id == b.chat_id && a.thread_key == b.thread_key))
        db.threads = true ∧
       pairwiseB (fun a b =>
          !(a.thread_id == b.thread_id && a.version_no == b.version_no))
        db.decisions = true ∧
       pairwiseB (fun a b =>
          !(a.chat_id == b.chat_id && a.owner == b.owner &&
            a.task_text == b.task_text))
        db.responsibilities = true ∧
       ∀ t ∈ db.threads, t.id < db.nextId) := by
  unfold WF
  simp [Bool.and_eq_true, List.all_eq_true, and_assoc]

/-- At most one stored thread matches a fixed (chat, key) under the
invariant. -/
lemma threads_filter_le_one (db : DB) (chat_id key : String)
    (h : pairwiseB (fun a b =>
        !(a.chat_id == b.chat_id && a.thread_key == b.thread_key))
      db.threads = true) :
    (db.threads.filter
      (fun tr => tr.chat_id == chat_id && tr.thread_key == key)).length
      ≤ 1 := by
  refine filter_le_one_of_pairwiseB _ _ ?_ _ h
  intro a b ha hb
  simp only [Bool.and_eq_true, beq_iff_eq] at ha hb
  simp [ha.1, ha.2, hb.1, hb.2]

/-- At most one stored decision matches a fixed (thread, version). -/
lemma decisions_filter_le_one (db : DB) (tid v : Nat)
    (h : pairwiseB (fun a b =>
        !(a.thread_id == b.thread_id && a.version_no == b.version_no))
      db.decisions = true) :
    (db.decisions.filter
      (fun d => d.thread_id == tid && d.version_no == v)).length ≤ 1 := by
  refine filter_le_one_of_pairwiseB _ _ ?_ _ h
  intro a b ha hb
  simp only [Bool.and_eq_true, beq_iff_eq] at ha hb
  simp [ha.1, ha.2, hb.1, hb.2]

/-- At most one stored responsibility matches a fixed identity key. -/
lemma resps_filter_le_one (db : DB) (chat_id owner task : String)
    (h : pairwiseB (fun a b =>
        !(a.chat_id == b.chat_id && a.owner == b.owner &&
          a.task_text == b.task_text))
      db.responsibilities = true) :
    (db.responsibilities.filter
      (fun r => r.chat_id == chat_id && r.owner == owner &&
        r.task_text == task)).length ≤ 1 := by
  refine filter_le_one_of_pairwiseB _ _ ?_ _ h
  intro a b ha hb
  simp only [Bool.and_eq_true, beq_iff_eq] at ha hb
  simp [ha.1.1, ha.1.2, ha.2, hb.1.1, hb.1.2, hb.2]

/-- The message upsert never touches the analysis tables. -/
lemma insertMessagesStep_frame (chat_id : String) (st : DB × Nat)
    (r : NewMessageRow) :
    ((insertMessagesStep chat_id st r).1.threads,
     (insertMessagesStep chat_id st r).1.decisions,
     (insertMessagesStep chat_id st r).1.decision_evidence,
     (insertMessagesStep chat_id st r).1.responsibilities) =
    (st.1.threads, st.1.decisions, st.1.decision_evidence,
     st.1.responsibilities) := by
  obtain ⟨db, c⟩ := st
  simp only [insertMessagesStep]
  split <;> rfl

/-- Presence of a stored message is preserved by further upsert steps. -/
lemma msgPresent_step_mono (chat_id : String) (st : DB × Nat)
    (r : NewMessageRow) (h : String)
    (hp : msgPresent st.1 chat_id h = true) :
    msgPresent (insertMessagesStep chat_id st r).1 chat_id h = true := by
  obtain ⟨db, c⟩ := st
  simp only [insertMessagesStep]
  split
  · exact hp
  · simp only [msgPresent] at hp ⊢
    rw [List.any_append]
    simp [hp]

/-- After its upsert step, a row's (chat, hash) is stored. -/
lemma msgPresent_step_self (chat_id : String) (st : DB × Nat)
    (r : NewMessageRow) :
    msgPresent (insertMessagesStep chat_id st r).1 chat_id
      r.msg_sha256 = true := by
  obtain ⟨db, c⟩ := st
  simp only [insertMessagesStep]
  split
  · rename_i hc
    exact hc
  · simp [msgPresent, List.any_append]

/-- Presence survives a whole fold of upsert steps. -/
lemma msgPresent_foldl_mono (chat_id : String) (h : String) :
    ∀ (rows : List NewMessageRow) (st : DB × Nat),
    msgPresent st.1 chat_id h = true →
    msgPresent ((rows.foldl (insertMessagesStep chat_id) st).1) chat_id h =
      true := by
  intro rows
  induction rows with
  | nil => intro st hp; exact hp
  | cons a rows ih =>
      intro st hp
      rw [List.foldl_cons]
      exact ih _ (msgPresent_step_mono chat_id st a h hp)

/-- Every ingested row's (chat, hash) is stored after the upsert fold. -/
lemma msgPresent_foldl_all (chat_id : String) :
    ∀ (rows : List NewMessageRow) (st : DB × Nat), ∀ r ∈ rows,
    msgPresent ((rows.foldl (insertMessagesStep chat_id) st).1) chat_id
      r.msg_sha256 = true := by
  intro rows
  induction rows with
  | nil => intro st r hr; cases hr
  | cons a rows ih =>
      intro st r hr
      rw [List.foldl_cons]
      rcases List.mem_cons.mp hr with rfl | hr'
      · exact msgPresent_foldl_mono chat_id r.msg_sha256 rows _
          (msgPresent_step_self chat_id st r)
      · exact ih _ r hr'

/-- The upsert step is a no-op on an already-stored (chat, hash). -/
lemma insertMessagesStep_noop (chat_id : String) (db : DB) (c : Nat)
    (r : NewMessageRow)
    (hp : msgPresent db chat_id r.msg_sha256 = true) :
    insertMessagesStep chat_id (db, c) r = (db, c) := by
  simp only [insertMessagesStep]
  rw [if_pos (by simpa [msgPresent] using hp)]

/-- The upsert fold inserts nothing when every row is already stored. -/
lemma insertMessages_foldl_noop (chat_id : String) :
    ∀ (rows : List NewMessageRow) (db : DB) (c : Nat),
    (∀ r ∈ rows, msgPresent db chat_id r.msg_sha256 = true) →
    rows.foldl (insertMessagesStep chat_id) (db, c) = (db, c) := by
  intro rows
  induction rows with
  | nil => intro db c _; rfl
  | cons a rows ih =>
      intro db c hall
      rw [List.foldl_cons,
        insertMessagesStep_noop chat_id db c a (hall a (by simp))]
      exact ih db c (fun r hr => hall r (by simp [hr]))

/-- The upsert step preserves the storage invariant. -/
lemma WF_insertMessagesStep (chat_id : String) (db : DB) (c : Nat)
    (r : NewMessageRow) (h : WF db = true) :
    WF (insertMessagesStep chat_id (db, c) r).1 = true := by
  simp only [insertMessagesStep]
  split
  · exact h
  · rw [WF_iff] at h ⊢
    refine ⟨h.1, h.2.1, h.2.2.1, ?_⟩
    intro t ht
    have := h.2.2.2 t ht
    simp only
    omega

/-- A covered candidate makes the decision persistence step a no-op: the
thread is found and the (thread, version) skip fires. -/
lemma persistDecisionStep_of_covered (chat_id : String)
    (evid : List (String × List String)) (db : DB) (c : DecPersistCounts)
    (dec : DecisionItem) (hcov : decCovered db chat_id dec) :
    persistDecisionStep chat_id evid (db, c) dec = (db, c) := by
  obtain ⟨t, ht, d, hd⟩ := hcov
  simp only [persistDecisionStep, ht, hd]

/-- The evidence-chunk loop touches only the evidence table and counters. -/
lemma evidFold_threads (chat_id : String) (decId : Nat)
    (chunks : List (List String)) (st : DB × DecPersistCounts) :
    (chunks.foldl (persistEvidenceChunkStep chat_id decId) st).1.threads =
      st.1.threads := by
  refine foldl_pres (persistEvidenceChunkStep chat_id decId)
    (fun st => st.1.threads) ?_ chunks st
  intro st chunk
  obtain ⟨db, c⟩ := st
  simp only [persistEvidenceChunkStep]
  split <;> rfl

/-- The evidence-chunk loop leaves the decision table unchanged. -/
lemma evidFold_decisions (chat_id : String) (decId : Nat)
    (chunks : List (List String)) (st : DB × DecPersistCounts) :
    (chunks.foldl (persistEvidenceChunkStep chat_id decId) st).1.decisions =
      st.1.decisions := by
  refine foldl_pres (persistEvidenceChunkStep chat_id decId)
    (fun st => st.1.decisions) ?_ chunks st
  intro st chunk
  obtain ⟨db, c⟩ := st
  simp only [persistEvidenceChunkStep]
  split <;> rfl

/-- The evidence-chunk loop leaves the message table unchanged. -/
lemma evidFold_messages (chat_id : String) (decId : Nat)
    (chunks : List (List String)) (st : DB × DecPersistCounts) :
    (chunks.foldl (persistEvidenceChunkStep chat_id decId) st).1.messages =
      st.1.messages := by
  refine foldl_pres (persistEvidenceChunkStep chat_id decId)
    (fun st => st.1.messages) ?_ chunks st
  intro st chunk
  obtain ⟨db, c⟩ := st
  simp only [persistEvidenceChunkStep]
  split <;> rfl

/-- The evidence-chunk loop leaves the responsibility table unchanged. -/
lemma evidFold_responsibilities (chat_id : String) (decId : Nat)
    (chunks : List (List String)) (st : DB × DecPersistCounts) :
    (chunks.foldl (persistEvidenceChunkStep chat_id
      decId) st).1.responsibilities = st.1.responsibilities := by
  refine foldl_pres (persistEvidenceChunkStep chat_id decId)
    (fun st => st.1.responsibilities) ?_ chunks st
  intro st chunk
  obtain ⟨db, c⟩ := st
  simp only [persistEvidenceChunkStep]
  split <;> rfl

/-- The evidence-chunk loop leaves the id counter unchanged. -/
lemma evidFold_nextId (chat_id : String) (decId : Nat)
    (chunks : List (List String)) (st : DB × DecPersistCounts) :
    (chunks.foldl (persistEvidenceChunkStep chat_id decId) st).1.nextId =
      st.1.nextId := by
  refine foldl_pres (persistEvidenceChunkStep chat_id decId)
    (fun st => st.1.nextId) ?_ chunks st
  intro st chunk
  obtain ⟨db, c⟩ := st
  simp only [persistEvidenceChunkStep]
  split <;> rfl

/-- Coverage only looks at the thread and decision tables. -/
lemma decCovered_of_fields {db1 db2 : DB} (chat_id : String)
    (dec : DecisionItem) (hth : db1.threads = db2.threads)
    (hdc : db1.decisions = db2.decisions)
    (h : decCovered db2 chat_id dec) : decCovered db1 chat_id dec := by
  unfold decCovered
  rw [hth, hdc]
  exact h

/-- After its persistence step, a decision candidate is covered: its thread
resolves uniquely and a row with its version number exists on it. -/
lemma persistDecisionStep_covers (chat_id : String)
    (evid : List (String × List String)) (db : DB) (c : DecPersistCounts)
    (dec : DecisionItem) (hwf : WF db = true) :
    decCovered (persistDecisionStep chat_id evid (db, c) dec).1 chat_id
      dec := by
  rw [WF_iff] at hwf
  obtain ⟨hthr, hdec, _, hids⟩ := hwf
  cases hft : singleMatch db.threads
    (fun tr => tr.chat_id == chat_id &&
      tr.thread_key == slugify dec.title) with
  | some t =>
      cases hfd : singleMatch db.decisions
        (fun d => d.thread_id == t.id && d.version_no == dec.version) with
      | some d =>
          rw [persistDecisionStep_of_covered chat_id evid db c dec
            ⟨t, hft, d, hfd⟩]
          exact ⟨t, hft, d, hfd⟩
      | none =>
          have hnil : db.decisions.filter
              (fun d => d.thread_id == t.id && d.version_no == dec.version)
              = [] :=
            singleMatch_none_eq_nil _ _
              (decisions_filter_le_one db t.id dec.version hdec) hfd
          simp only [persistDecisionStep, hft, hfd]
          split
          · refine ⟨t, hft, ?_⟩
            exact ⟨_, singleMatch_append_pos _ _ _ hnil (by simp)⟩
          · refine decCovered_of_fields chat_id dec
              (evidFold_threads _ _ _ _) (evidFold_decisions _ _ _ _) ?_
            refine ⟨t, hft, ?_⟩
            exact ⟨_, singleMatch_append_pos _ _ _ hnil (by simp)⟩
  | none =>
      have hth_nil : db.threads.filter
          (fun tr => tr.chat_id == chat_id &&
            tr.thread_key == slugify dec.title) = [] :=
        singleMatch_none_eq_nil _ _
          (threads_filter_le_one db chat_id (slugify dec.title) hthr) hft
      have hth_new : singleMatch (db.threads ++
          [{ id := db.nextId, chat_id := chat_id,
             thread_key := slugify dec.title }])
          (fun tr => tr.chat_id == chat_id &&
            tr.thread_key == slugify dec.title) = some
          { id := db.nextId, chat_id := chat_id,
            thread_key := slugify dec.title } :=
        singleMatch_append_pos _ _ _ hth_nil (by simp)
      simp only [persistDecisionStep, hft]
      split
      · rename_i d hfd
        exact ⟨_, hth_new, d, hfd⟩
      · rename_i hfd
        have hnil := singleMatch_none_eq_nil _ _
          (decisions_filter_le_one db
            ({ id := db.nextId, chat_id := chat_id,
               thread_key := slugify dec.title } : ThreadRow).id
            dec.version hdec) hfd
        split
        · refine ⟨_, hth_new, ?_⟩
          exact ⟨_, singleMatch_append_pos _ _ _ hnil (by simp)⟩
        · refine decCovered_of_fields chat_id dec
            (evidFold_threads _ _ _ _) (evidFold_decisions _ _ _ _) ?_
          refine ⟨_, hth_new, ?_⟩
          exact ⟨_, singleMatch_append_pos _ _ _ hnil (by simp)⟩

/-- A resolved unique row stays resolved after inserting a non-matching
row. -/
lemma singleMatch_append_some {α : Type} (l : List α) (p : α → Bool)
    (x y : α) (h : singleMatch l p = some y) (hx : p x = false) :
    singleMatch (l ++ [x]) p = some y := by
  rw [singleMatch_append_neg _ _ _ hx]
  exact h

/-- The invariant only looks at the four fields it constrains. -/
lemma WF_of_fields {db1 db2 : DB} (h1 : db1.threads = db2.threads)
    (h2 : db1.decisions = db2.decisions)
    (h3 : db1.responsibilities = db2.responsibilities)
    (h4 : db1.nextId = db2.nextId) (h : WF db2 = true) : WF db1 = true := by
  unfold WF
  rw [h1, h2, h3, h4]
  exact h

/-- A member of a resolved singleton filter is a member of the table. -/
lemma singleMatch_mem {α : Type} (l : List α) (p : α → Bool) (x : α)
    (h : singleMatch l p = some x) : x ∈ l := by
  have hf := (singleMatch_some_iff l p x).mp h
  have : x ∈ l.filter p := by rw [hf]; simp
  exact List.mem_of_mem_filter this

/-- The decision persistence step never un-covers a previously covered
candidate: inserted threads carry new slugs and inserted decision rows carry
either a different version or a fresh thread id. -/
lemma persistDecisionStep_preserves_covered (chat_id : String)
    (evid : List (String × List String)) (db : DB) (c : DecPersistCounts)
    (dec dec' : DecisionItem) (hwf : WF db = true)
    (hcov : decCovered db chat_id dec') :
    decCovered (persistDecisionStep chat_id evid (db, c) dec).1 chat_id
      dec' := by
  rw [WF_iff] at hwf
  obtain ⟨hthr, hdec, _, hids⟩ := hwf
  obtain ⟨t, ht, d, hd⟩ := hcov
  cases hft : singleMatch db.threads
    (fun tr => tr.chat_id == chat_id &&
      tr.thread_key == slugify dec.title) with
  | some t2 =>
      simp only [persistDecisionStep, hft]
      split
      · exact ⟨t, ht, d, hd⟩
      · rename_i hfd
        split
        · refine ⟨t, ht, d, singleMatch_append_some _ _ _ _ hd ?_⟩
          by_cases h1 : t2.id = t.id
          · by_cases h2 : dec.version = dec'.version
            · exfalso
              rw [h1, h2] at hfd
              exact Option.noConfusion (hd.symm.trans hfd)
            · simp [beq_eq_false_iff_ne.mpr h2]
          · simp [beq_eq_false_iff_ne.mpr h1]
        · refine decCovered_of_fields chat_id dec'
            (evidFold_threads _ _ _ _) (evidFold_decisions _ _ _ _) ?_
          refine ⟨t, ht, d, singleMatch_append_some _ _ _ _ hd ?_⟩
          by_cases h1 : t2.id = t.id
          · by_cases h2 : dec.version = dec'.version
            · exfalso
              rw [h1, h2] at hfd
              exact Option.noConfusion (hd.symm.trans hfd)
            · simp [beq_eq_false_iff_ne.mpr h2]
          · simp [beq_eq_false_iff_ne.mpr h1]
  | none =>
      have htmem : t ∈ db.threads := singleMatch_mem _ _ _ ht
      have htide : t.id < db.nextId := hids t htmem
      have hslug : slugify dec.title ≠ slugify dec'.title := by
        intro hsl
        rw [hsl] at hft
        exact Option.noConfusion (ht.symm.trans hft)
      have htnew : ∀ tr : ThreadRow, tr.thread_key = slugify dec.title →
          (tr.chat_id == chat_id &&
            tr.thread_key == slugify dec'.title) = false := by
        intro tr htr
        rw [htr]
        simp [beq_eq_false_iff_ne.mpr hslug]
      simp only [persistDecisionStep, hft]
      split
      · refine ⟨t, singleMatch_append_some _ _ _ _ ht (htnew _ rfl), d, hd⟩
      · rename_i hfd
        split
        · refine ⟨t, singleMatch_append_some _ _ _ _ ht (htnew _ rfl),
            d, singleMatch_append_some _ _ _ _ hd ?_⟩
          have : (db.nextId == t.id) = false :=
            beq_eq_false_iff_ne.mpr (by omega)
          simp [this]
        · refine decCovered_of_fields chat_id dec'
            (evidFold_threads _ _ _ _) (evidFold_decisions _ _ _ _) ?_
          refine ⟨t, singleMatch_append_some _ _ _ _ ht (htnew _ rfl),
            d, singleMatch_append_some _ _ _ _ hd ?_⟩
          have : (db.nextId == t.id) = false :=
            beq_eq_false_iff_ne.mpr (by omega)
          simp [this]

/-- The decision persistence step preserves the storage invariant. -/
lemma WF_persistDecisionStep (chat_id : String)
    (evid : List (String × List String)) (db : DB) (c : DecPersistCounts)
    (dec : DecisionItem) (hwf : WF db = true) :
    WF (persistDecisionStep chat_id evid (db, c) dec).1 = true := by
  have hwf' := hwf
  rw [WF_iff] at hwf'
  obtain ⟨hthr, hdec, hresp, hids⟩ := hwf'
  cases hft : singleMatch db.threads
    (fun tr => tr.chat_id == chat_id &&
      tr.thread_key == slugify dec.title) with
  | some t2 =>
      simp only [persistDecisionStep, hft]
      split
      · exact hwf
      · rename_i hfd
        have hnil := singleMatch_none_eq_nil _ _
          (decisions_filter_le_one db t2.id dec.version hdec) hfd
        have hall : ∀ y ∈ db.decisions,
            (y.thread_id == t2.id && y.version_no == dec.version) = false :=
          by
          intro y hy
          have := List.filter_eq_nil_iff.mp hnil y hy
          cases h : (y.thread_id == t2.id && y.version_no == dec.version)
          · rfl
          · exact absurd h this
        have hdec' : pairwiseB (fun a b =>
            !(a.thread_id == b.thread_id && a.version_no == b.version_no))
            (db.decisions ++
              [{ id := db.nextId, thread_id := t2.id,
                 version_no := dec.version, status := dec.status.text,
                 confidence := dec.confidence, decision_title := dec.title,
                 final_outcome := dec.explanation,
                 decided_at := dec.timestamp }]) = true := by
          rw [pairwiseB_append_single]
          refine ⟨hdec, ?_⟩
          intro y hy
          simp only
          rw [hall y hy]
          rfl
        split
        · rw [WF_iff]
          exact ⟨hthr, hdec', hresp, by
            intro t ht
            have := hids t ht
            simp only
            omega⟩
        · refine WF_of_fields (evidFold_threads _ _ _ _)
            (evidFold_decisions _ _ _ _)
            (evidFold_responsibilities _ _ _ _)
            (evidFold_nextId _ _ _ _) ?_
          rw [WF_iff]
          exact ⟨hthr, hdec', hresp, by
            intro t ht
            have := hids t ht
            simp only
            omega⟩
  | none =>
      have hth_nil := singleMatch_none_eq_nil _ _
        (threads_filter_le_one db chat_id (slugify dec.title) hthr) hft
      have hthall : ∀ y ∈ db.threads,
          (y.chat_id == chat_id && y.thread_key == slugify dec.title) =
            false := by
        intro y hy
        have := List.filter_eq_nil_iff.mp hth_nil y hy
        cases h : (y.chat_id == chat_id && y.thread_key == slugify dec.title)
        · rfl
        · exact absurd h this
      have hthr' : pairwiseB (fun a b =>
          !(a.chat_id == b.chat_id && a.thread_key == b.thread_key))
          (db.threads ++
            [{ id := db.nextId, chat_id := chat_id,
               thread_key := slugify dec.title }]) = true := by
        rw [pairwiseB_append_single]
        refine ⟨hthr, ?_⟩
        intro y hy
        simp only
        rw [hthall y hy]
        rfl
      simp only [persistDecisionStep, hft]
      split
      · rw [WF_iff]
        refine ⟨hthr', hdec, hresp, ?_⟩
        intro t ht
        rcases List.mem_append.mp ht with h1 | h2
        · have := hids t h1
          simp only
          omega
        · rcases List.mem_singleton.mp h2 with rfl
          simp only
          omega
      · rename_i hfd
        have hnil := singleMatch_none_eq_nil _ _
          (decisions_filter_le_one db db.nextId dec.version hdec) hfd
        have hall : ∀ y ∈ db.decisions,
            (y.thread_id == db.nextId &&
              y.version_no == dec.version) = false := by
          intro y hy
          have := List.filter_eq_nil_iff.mp hnil y hy
          cases h : (y.thread_id == db.nextId &&
              y.version_no == dec.version)
          · rfl
          · exact absurd h this
        have hdec' : pairwiseB (fun a b =>
            !(a.thread_id == b.thread_id && a.version_no == b.version_no))
            (db.decisions ++
              [{ id := db.nextId + 1,
                 thread_id := db.nextId,
                 version_no := dec.version,
                 status := dec.status.text,
                 confidence := dec.confidence,
                 decision_title := dec.title,
                 final_outcome := dec.explanation,
                 decided_at := dec.timestamp }]) = true := by
          rw [pairwiseB_append_single]
          refine ⟨hdec, ?_⟩
          intro y hy
          simp only
          rw [hall y hy]
          rfl
        have hids' : ∀ t ∈ db.threads ++
            [{ id := db.nextId, chat_id := chat_id,
               thread_key := slugify dec.title }], t.id < db.nextId + 1 + 1
            := by
          intro t ht
          rcases List.mem_append.mp ht with h1 | h2
          · have := hids t h1
            omega
          · rcases List.mem_singleton.mp h2 with rfl
            simp only
            omega
        split
        · rw [WF_iff]
          exact ⟨hthr', hdec', hresp, hids'⟩
        · refine WF_of_fields (evidFold_threads _ _ _ _)
            (evidFold_decisions _ _ _ _)
            (evidFold_responsibilities _ _ _ _)
            (evidFold_nextId _ _ _ _) ?_
          rw [WF_iff]
          exact ⟨hthr', hdec', hresp, hids'⟩

/-- The decision persistence step never touches the message table. -/
lemma persistDecisionStep_messages (chat_id : String)
    (evid : List (String × List String)) (st : DB × DecPersistCounts)
    (dec : DecisionItem) :
    (persistDecisionStep chat_id evid st dec).1.messages =
      st.1.messages := by
  obtain ⟨db, c⟩ := st
  simp only [persistDecisionStep]
  split <;> split <;>
    first
      | rfl
      | (split <;> first | rfl | exact evidFold_messages _ _ _ _)

/-- The decision persistence step never touches the responsibility table. -/
lemma persistDecisionStep_responsibilities (chat_id : String)
    (evid : List (String × List String)) (st : DB × DecPersistCounts)
    (dec : DecisionItem) :
    (persistDecisionStep chat_id evid st dec).1.responsibilities =
      st.1.responsibilities := by
  obtain ⟨db, c⟩ := st
  simp only [persistDecisionStep]
  split <;> split <;>
    first
      | rfl
      | (split <;> first | rfl | exact evidFold_responsibilities _ _ _ _)

/-- The decision persistence loop never touches the message table. -/
lemma persistDecisionsFold_messages (chat_id : String)
    (evid : List (String × List String)) (ds : List DecisionItem)
    (st : DB × DecPersistCounts) :
    ((ds.foldl (persistDecisionStep chat_id evid) st).1.messages) =
      st.1.messages :=
  foldl_pres _ (fun st => st.1.messages)
    (persistDecisionStep_messages chat_id evid) ds st

/-- The decision persistence loop never touches the responsibility table. -/
lemma persistDecisionsFold_responsibilities (chat_id : String)
    (evid : List (String × List String)) (ds : List DecisionItem)
    (st : DB × DecPersistCounts) :
    ((ds.foldl (persistDecisionStep chat_id evid) st).1.responsibilities) =
      st.1.responsibilities :=
  foldl_pres _ (fun st => st.1.responsibilities)
    (persistDecisionStep_responsibilities chat_id evid) ds st

/-- The decision persistence loop preserves the storage invariant. -/
lemma WF_persistDecisionsFold (chat_id : String)
    (evid : List (String × List String)) :
    ∀ (ds : List DecisionItem) (st : DB × DecPersistCounts),
    WF st.1 = true →
    WF ((ds.foldl (persistDecisionStep chat_id evid) st).1) = true := by
  intro ds
  induction ds with
  | nil => intro st h; exact h
  | cons d ds ih =>
      intro st h
      obtain ⟨db, c⟩ := st
      rw [List.foldl_cons]
      exact ih _ (WF_persistDecisionStep chat_id evid db c d h)

/-- Coverage survives the rest of the decision persistence loop. -/
lemma decCovered_foldl_mono (chat_id : String)
    (evid : List (String × List String)) (dec' : DecisionItem) :
    ∀ (ds : List DecisionItem) (st : DB × DecPersistCounts),
    WF st.1 = true → decCovered st.1 chat_id dec' →
    decCovered ((ds.foldl (persistDecisionStep chat_id evid) st).1)
      chat_id dec' := by
  intro ds
  induction ds with
  | nil => intro st _ h; exact h
  | cons d ds ih =>
      intro st hwf h
      obtain ⟨db, c⟩ := st
      rw [List.foldl_cons]
      exact ih _ (WF_persistDecisionStep chat_id evid db c d hwf)
        (persistDecisionStep_preserves_covered chat_id evid db c d dec'
          hwf h)

/-- After the decision persistence loop, every processed candidate is
covered. -/
lemma persistDecisionsFold_covers (chat_id : String)
    (evid : List (String × List String)) :
    ∀ (ds : List DecisionItem) (st : DB × DecPersistCounts),
    WF st.1 = true → ∀ dec ∈ ds,
    decCovered ((ds.foldl (persistDecisionStep chat_id evid) st).1)
      chat_id dec := by
  intro ds
  induction ds with
  | nil => intro st _ dec h; cases h
  | cons d ds ih =>
      intro st hwf dec hmem
      obtain ⟨db, c⟩ := st
      rw [List.foldl_cons]
      rcases List.mem_cons.mp hmem with rfl | hmem'
      · exact decCovered_foldl_mono chat_id evid dec ds _
          (WF_persistDecisionStep chat_id evid db c dec hwf)
          (persistDecisionStep_covers chat_id evid db c dec hwf)
      · exact ih _ (WF_persistDecisionStep chat_id evid db c d hwf)
          dec hmem'

/-- The decision persistence loop is a no-op when every candidate is
already covered. -/
lemma persistDecisionsFold_skip (chat_id : String)
    (evid : List (String × List String)) :
    ∀ (ds : List DecisionItem) (db : DB) (c : DecPersistCounts),
    (∀ dec ∈ ds, decCovered db chat_id dec) →
    ds.foldl (persistDecisionStep chat_id evid) (db, c) = (db, c) := by
  intro ds
  induction ds with
  | nil => intro db c _; rfl
  | cons d ds ih =>
      intro db c hall
      rw [List.foldl_cons,
        persistDecisionStep_of_covered chat_id evid db c d
          (hall d (by simp))]
      exact ih db c (fun dec h => hall dec (by simp [h]))

/-- A covered responsibility makes its persistence step a no-op. -/
lemma persistResponsibilityStep_of_covered (chat_id : String)
    (evid : List (String × List String)) (db : DB) (c : Nat)
    (resp : ResponsibilityItem) (hcov : respCovered db chat_id resp) :
    persistResponsibilityStep chat_id evid (db, c) resp = (db, c) := by
  obtain ⟨r, hr⟩ := hcov
  simp only [persistResponsibilityStep, hr]

/-- After its persistence step, a responsibility's identity key resolves
uniquely. -/
lemma persistResponsibilityStep_covers (chat_id : String)
    (evid : List (String × List String)) (db : DB) (c : Nat)
    (resp : ResponsibilityItem) (hwf : WF db = true) :
    respCovered (persistResponsibilityStep chat_id evid (db, c) resp).1
      chat_id resp := by
  rw [WF_iff] at hwf
  cases hr : singleMatch db.responsibilities
    (fun r => r.chat_id == chat_id && r.owner == resp.owner &&
      r.task_text == taskTextOf resp) with
  | some r =>
      rw [persistResponsibilityStep_of_covered chat_id evid db c resp
        ⟨r, hr⟩]
      exact ⟨r, hr⟩
  | none =>
      have hnil := singleMatch_none_eq_nil _ _
        (resps_filter_le_one db chat_id resp.owner (taskTextOf resp)
          hwf.2.2.1) hr
      simp only [persistResponsibilityStep, hr]
      exact ⟨_, singleMatch_append_pos _ _ _ hnil (by simp)⟩

/-- The responsibility persistence step never un-covers a previously
covered candidate. -/
lemma persistResponsibilityStep_preserves_covered (chat_id : String)
    (evid : List (String × List String)) (db : DB) (c : Nat)
    (resp resp' : ResponsibilityItem) (hcov : respCovered db chat_id resp') :
    respCovered (persistResponsibilityStep chat_id evid (db, c) resp).1
      chat_id resp' := by
  obtain ⟨r, hr⟩ := hcov
  cases hr2 : singleMatch db.responsibilities
    (fun r => r.chat_id == chat_id && r.owner == resp.owner &&
      r.task_text == taskTextOf resp) with
  | some r2 =>
      rw [persistResponsibilityStep_of_covered chat_id evid db c resp
        ⟨r2, hr2⟩]
      exact ⟨r, hr⟩
  | none =>
      simp only [persistResponsibilityStep, hr2]
      refine ⟨r, singleMatch_append_some _ _ _ _ hr ?_⟩
      by_cases h1 : resp.owner = resp'.owner
      · by_cases h2 : taskTextOf resp = taskTextOf resp'
        · exfalso
          rw [h1, h2] at hr2
          exact Option.noConfusion (hr.symm.trans hr2)
        · simp [beq_eq_false_iff_ne.mpr h2]
      · simp [beq_eq_false_iff_ne.mpr h1]

/-- The responsibility persistence step preserves the storage invariant. -/
lemma WF_persistResponsibilityStep (chat_id : String)
    (evid : List (String × List String)) (db : DB) (c : Nat)
    (resp : ResponsibilityItem) (hwf : WF db = true) :
    WF (persistResponsibilityStep chat_id evid (db, c) resp).1 = true := by
  have hwf' := hwf
  rw [WF_iff] at hwf'
  obtain ⟨hthr, hdec, hresp, hids⟩ := hwf'
  cases hr : singleMatch db.responsibilities
    (fun r => r.chat_id == chat_id && r.owner == resp.owner &&
      r.task_text == taskTextOf resp) with
  | some r =>
      rw [persistResponsibilityStep_of_covered chat_id evid db c resp
        ⟨r, hr⟩]
      exact hwf
  | none =>
      have hnil := singleMatch_none_eq_nil _ _
        (resps_filter_le_one db chat_id resp.owner (taskTextOf resp) hresp)
        hr
      have hall : ∀ y ∈ db.responsibilities,
          (y.chat_id == chat_id && y.owner == resp.owner &&
            y.task_text == taskTextOf resp) = false := by
        intro y hy
        have := List.filter_eq_nil_iff.mp hnil y hy
        cases h : (y.chat_id == chat_id && y.owner == resp.owner &&
            y.task_text == taskTextOf resp)
        · rfl
        · exact absurd h this
      simp only [persistResponsibilityStep, hr]
      rw [WF_iff]
      refine ⟨hthr, hdec, ?_, hids⟩
      rw [pairwiseB_append_single]
      refine ⟨hresp, ?_⟩
      intro y hy
      simp only
      rw [hall y hy]
      rfl

/-- The responsibility persistence step touches only the responsibility
table. -/
lemma persistResponsibilityStep_frame (chat_id : String)
    (evid : List (String × List String)) (st : DB × Nat)
    (resp : ResponsibilityItem) :
    ((persistResponsibilityStep chat_id evid st resp).1.messages,
     (persistResponsibilityStep chat_id evid st resp).1.threads,
     (persistResponsibilityStep chat_id evid st resp).1.decisions,
     (persistResponsibilityStep chat_id evid st resp).1.decision_evidence,
     (persistResponsibilityStep chat_id evid st resp).1.nextId) =
    (st.1.messages, st.1.threads, st.1.decisions, st.1.decision_evidence,
     st.1.nextId) := by
  obtain ⟨db, c⟩ := st
  simp only [persistResponsibilityStep]
  split <;> rfl

/-- The responsibility persistence loop touches only its own table. -/
lemma persistResponsibilitiesFold_frame (chat_id : String)
    (evid : List (String × List String)) (rs : List ResponsibilityItem)
    (st : DB × Nat) :
    (((rs.foldl (persistResponsibilityStep chat_id evid) st).1.messages),
     ((rs.foldl (persistResponsibilityStep chat_id evid) st).1.threads),
     ((rs.foldl (persistResponsibilityStep chat_id evid) st).1.decisions),
     ((rs.foldl (persistResponsibilityStep chat_id
        evid) st).1.decision_evidence),
     ((rs.foldl (persistResponsibilityStep chat_id evid) st).1.nextId)) =
    (st.1.messages, st.1.threads, st.1.decisions, st.1.decision_evidence,
     st.1.nextId) :=
  foldl_pres _ (fun st => (st.1.messages, st.1.threads, st.1.decisions,
      st.1.decision_evidence, st.1.nextId))
    (persistResponsibilityStep_frame chat_id evid) rs st

/-- The responsibility persistence loop preserves the storage invariant. -/
lemma WF_persistResponsibilitiesFold (chat_id : String)
    (evid : List (String × List String)) :
    ∀ (rs : List ResponsibilityItem) (st : DB × Nat),
    WF st.1 = true →
    WF ((rs.foldl (persistResponsibilityStep chat_id evid) st).1) = true :=
  by
  intro rs
  induction rs with
  | nil => intro st h; exact h
  | cons r rs ih =>
      intro st h
      obtain ⟨db, c⟩ := st
      rw [List.foldl_cons]
      exact ih _ (WF_persistResponsibilityStep chat_id evid db c r h)

/-- Coverage survives the rest of the responsibility persistence loop. -/
lemma respCovered_foldl_mono (chat_id : String)
    (evid : List (String × List String)) (resp' : ResponsibilityItem) :
    ∀ (rs : List ResponsibilityItem) (st : DB × Nat),
    respCovered st.1 chat_id resp' →
    respCovered ((rs.foldl (persistResponsibilityStep chat_id evid) st).1)
      chat_id resp' := by
  intro rs
  induction rs with
  | nil => intro st h; exact h
  | cons r rs ih =>
      intro st h
      obtain ⟨db, c⟩ := st
      rw [List.foldl_cons]
      exact ih _
        (persistResponsibilityStep_preserves_covered chat_id evid db c r
          resp' h)

/-- After the responsibility persistence loop, every processed candidate is
covered. -/
lemma persistResponsibilitiesFold_covers (chat_id : String)
    (evid : List (String × List String)) :
    ∀ (rs : List ResponsibilityItem) (st : DB × Nat),
    WF st.1 = true → ∀ resp ∈ rs,
    respCovered ((rs.foldl (persistResponsibilityStep chat_id evid) st).1)
      chat_id resp := by
  intro rs
  induction rs with
  | nil => intro st _ resp h; cases h
  | cons r rs ih =>
      intro st hwf resp hmem
      obtain ⟨db, c⟩ := st
      rw [List.foldl_cons]
      rcases List.mem_cons.mp hmem with rfl | hmem'
      · exact respCovered_foldl_mono chat_id evid resp rs _
          (persistResponsibilityStep_covers chat_id evid db c resp hwf)
      · exact ih _ (WF_persistResponsibilityStep chat_id evid db c r hwf)
          resp hmem'

/-- The responsibility persistence loop is a no-op when every candidate is
already covered. -/
lemma persistResponsibilitiesFold_skip (chat_id : String)
    (evid : List (String × List String)) :
    ∀ (rs : List ResponsibilityItem) (db : DB) (c : Nat),
    (∀ resp ∈ rs, respCovered db chat_id resp) →
    rs.foldl (persistResponsibilityStep chat_id evid) (db, c) = (db, c) :=
  by
  intro rs
  induction rs with
  | nil => intro db c _; rfl
  | cons r rs ih =>
      intro db c hall
      rw [List.foldl_cons,
        persistResponsibilityStep_of_covered chat_id evid db c r
          (hall r (by simp))]
      exact ih db c (fun resp h => hall resp (by simp [h]))

/-- The whole message upsert fold preserves the storage invariant. -/
lemma WF_insertMessagesFold (chat_id : String) :
    ∀ (rows : List NewMessageRow) (st : DB × Nat),
    WF st.1 = true →
    WF ((rows.foldl (insertMessagesStep chat_id) st).1) = true := by
  intro rows
  induction rows with
  | nil => intro st h; exact h
  | cons r rows ih =>
      intro st h
      obtain ⟨db, c⟩ := st
      rw [List.foldl_cons]
      exact ih _ (WF_insertMessagesStep chat_id db c r h)

/-- The responsibility persistence loop never touches the message table. -/
lemma respFold_messages (chat_id : String)
    (evid : List (String × List String)) (rs : List ResponsibilityItem)
    (st : DB × Nat) :
    ((rs.foldl (persistResponsibilityStep chat_id evid) st).1.messages) =
      st.1.messages := by
  refine foldl_pres _ (fun st => st.1.messages) ?_ rs st
  intro st r
  obtain ⟨db, c⟩ := st
  simp only [persistResponsibilityStep]
  split <;> rfl

/-- The responsibility persistence loop never touches the thread table. -/
lemma respFold_threads (chat_id : String)
    (evid : List (String × List String)) (rs : List ResponsibilityItem)
    (st : DB × Nat) :
    ((rs.foldl (persistResponsibilityStep chat_id evid) st).1.threads) =
      st.1.threads := by
  refine foldl_pres _ (fun st => st.1.threads) ?_ rs st
  intro st r
  obtain ⟨db, c⟩ := st
  simp only [persistResponsibilityStep]
  split <;> rfl

/-- The responsibility persistence loop never touches the decision table. -/
lemma respFold_decisions (chat_id : String)
    (evid : List (String × List String)) (rs : List ResponsibilityItem)
    (st : DB × Nat) :
    ((rs.foldl (persistResponsibilityStep chat_id evid) st).1.decisions) =
      st.1.decisions := by
  refine foldl_pres _ (fun st => st.1.decisions) ?_ rs st
  intro st r
  obtain ⟨db, c⟩ := st
  simp only [persistResponsibilityStep]
  split <;> rfl

/-- Message presence only depends on the message table. -/
lemma msgPresent_congr {db1 db2 : DB} (chat_id h : String)
    (hm : db1.messages = db2.messages) :
    msgPresent db1 chat_id h = msgPresent db2 chat_id h := by
  unfold msgPresent
  rw [hm]

/-- The chronological fetch only depends on the message table. -/
lemma fetchChatMessages_congr {db1 db2 : DB} (chat_id : String)
    (hm : db1.messages = db2.messages) :
    fetchChatMessages db1 chat_id = fetchChatMessages db2 chat_id := by
  unfold fetchChatMessages
  rw [hm]

/-- The analysis pipeline never touches the message table. -/
lemma runAnalysisPipeline_messages (db1 : DB) (chat_id : String) :
    (runAnalysisPipeline db1 chat_id).1.messages = db1.messages := by
  simp only [runAnalysisPipeline, persistDecisions, persistResponsibilities]
  split
  · rfl
  · rw [respFold_messages, persistDecisionsFold_messages]

/-- The analysis pipeline preserves the storage invariant. -/
lemma WF_runAnalysisPipeline (db1 : DB) (chat_id : String)
    (hwf : WF db1 = true) :
    WF (runAnalysisPipeline db1 chat_id).1 = true := by
  simp only [runAnalysisPipeline, persistDecisions, persistResponsibilities]
  split
  · exact hwf
  · exact WF_persistResponsibilitiesFold _ _ _ _
      (WF_persistDecisionsFold _ _ _ _ hwf)

/-- Running the analysis pipeline over a store that already covers every
candidate extracted from its own (unchanged) message set persists nothing:
the store is returned as-is and both net-new counters are zero. -/
lemma pipeline_skip (db2 db1 : DB) (chat_id : String)
    (hmeq : db2.messages = db1.messages)
    (hcovD : ∀ dec ∈ (extractDecisions (fetchChatMessages db1
      chat_id)).items, decCovered db2 chat_id dec)
    (hcovR : ∀ r ∈ (extractResponsibilities (fetchChatMessages db1
      chat_id)).items, respCovered db2 chat_id r) :
    runAnalysisPipeline db2 chat_id =
      (db2,
       { messages_analysed := (fetchChatMessages db1 chat_id).length,
         decisions_detected := (extractDecisions (fetchChatMessages db1
           chat_id)).items.length,
         decisions_new := 0,
         responsibilities_detected := (extractResponsibilities
           (fetchChatMessages db1 chat_id)).items.length,
         responsibilities_new := 0 }) := by
  simp only [runAnalysisPipeline, persistDecisions, persistResponsibilities]
  rw [fetchChatMessages_congr chat_id hmeq]
  by_cases hm : (fetchChatMessages db1 chat_id).isEmpty = true
  · rw [if_pos hm]
    rw [List.isEmpty_iff.mp hm]
    rfl
  · rw [if_neg hm]
    rw [persistDecisionsFold_skip chat_id _ _ db2 ⟨0, 0, 0⟩ hcovD]
    dsimp only
    rw [persistResponsibilitiesFold_skip chat_id _ _ db2 0 hcovR]

/-- After one pipeline run, every decision candidate extracted from the
scope's messages is covered in the resulting store. -/
lemma run1_decCovered (db1 : DB) (chat_id : String) (hwf : WF db1 = true) :
    ∀ dec ∈ (extractDecisions (fetchChatMessages db1 chat_id)).items,
    decCovered (runAnalysisPipeline db1 chat_id).1 chat_id dec := by
  intro dec hmem
  simp only [runAnalysisPipeline, persistDecisions, persistResponsibilities]
  by_cases hm : (fetchChatMessages db1 chat_id).isEmpty = true
  · exfalso
    rw [List.isEmpty_iff.mp hm] at hmem
    simp [extractDecisions, extractDecisionsGo] at hmem
  · rw [if_neg hm]
    dsimp only
    exact decCovered_of_fields chat_id dec (respFold_threads _ _ _ _)
      (respFold_decisions _ _ _ _)
      (persistDecisionsFold_covers chat_id _ _ _ hwf dec hmem)

/-- After one pipeline run, every responsibility candidate extracted from
the scope's messages is covered in the resulting store. -/
lemma run1_respCovered (db1 : DB) (chat_id : String) (hwf : WF db1 = true) :
    ∀ r ∈ (extractResponsibilities (fetchChatMessages db1 chat_id)).items,
    respCovered (runAnalysisPipeline db1 chat_id).1 chat_id r := by
  intro r hmem
  simp only [runAnalysisPipeline, persistDecisions, persistResponsibilities]
  by_cases hm : (fetchChatMessages db1 chat_id).isEmpty = true
  · exfalso
    rw [List.isEmpty_iff.mp hm] at hmem
    simp [extractResponsibilities, extractResponsibilitiesGo] at hmem
  · rw [if_neg hm]
    dsimp only
    exact persistResponsibilitiesFold_covers chat_id _ _ _
      (WF_persistDecisionsFold chat_id _ _ _ hwf) r hmem

/-- Running the analysis pipeline a second time on its own output store
returns that store unchanged, with zero net-new decisions and
responsibilities. -/
lemma runAnalysisPipeline_second (db1 : DB) (chat_id : String)
    (hwf : WF db1 = true) :
    runAnalysisPipeline (runAnalysisPipeline db1 chat_id).1 chat_id =
      ((runAnalysisPipeline db1 chat_id).1,
       { messages_analysed := (fetchChatMessages db1 chat_id).length,
         decisions_detected := (extractDecisions (fetchChatMessages db1
           chat_id)).items.length,
         decisions_new := 0,
         responsibilities_detected := (extractResponsibilities
           (fetchChatMessages db1 chat_id)).items.length,
         responsibilities_new := 0 }) :=
  pipeline_skip _ db1 chat_id (runAnalysisPipeline_messages db1 chat_id)
    (run1_decCovered db1 chat_id hwf) (run1_respCovered db1 chat_id hwf)

/-- Claim C4: the persistence pass is idempotent — before inserting, it
skips any decision whose (thread, version number) already exists and any
responsibility whose (scope, owner, task text) already exists, so running
the full pipeline (sync message insertion with its (chat, hash) duplicate
skip, then the analysis pass) a second time over the same already-persisted
input inserts zero net-new messages, threads, decision versions, and
responsibilities: the store comes back unchanged, the inserted-message
counter is 0, and both net-new counters of the analysis are 0.

The store-uniqueness hypothesis `WF` records exactly the unique
constraints the Supabase schema enforces (unique (chat, thread_key),
(thread_id, version_no), (chat, owner, task) and fresh ids), which the
code relies on through `.maybeSingle()`. -/
theorem c4_reingestion_idempotent (db : DB) (chat_id : String)
    (rows : List NewMessageRow) (hwf : WF db = true) :
    (ingestAndAnalyze (ingestAndAnalyze db chat_id rows).1 chat_id
      rows).1 = (ingestAndAnalyze db chat_id rows).1 ∧
    (ingestAndAnalyze (ingestAndAnalyze db chat_id rows).1 chat_id
      rows).2.1 = 0 ∧
    (ingestAndAnalyze (ingestAndAnalyze db chat_id rows).1 chat_id
      rows).2.2.decisions_new = 0 ∧
    (ingestAndAnalyze (ingestAndAnalyze db chat_id rows).1 chat_id
      rows).2.2.responsibilities_new = 0 := by
  have hwf1 : WF (insertMessages db chat_id rows).1 = true := by
    rw [insertMessages_eq_foldl]
    exact WF_insertMessagesFold chat_id rows (db, 0) hwf
  have hing : ingestAndAnalyze db chat_id rows =
      ((runAnalysisPipeline (insertMessages db chat_id rows).1 chat_id).1,
       (insertMessages db chat_id rows).2,
       (runAnalysisPipeline (insertMessages db chat_id rows).1
         chat_id).2) := rfl
  have hmsgF : (ingestAndAnalyze db chat_id rows).1.messages =
      (insertMessages db chat_id rows).1.messages := by
    rw [hing]
    exact runAnalysisPipeline_messages _ _
  have hpresF : ∀ r ∈ rows,
      msgPresent (ingestAndAnalyze db chat_id rows).1 chat_id
        r.msg_sha256 = true := by
    intro r hr
    rw [msgPresent_congr chat_id r.msg_sha256 hmsgF,
      insertMessages_eq_foldl]
    exact msgPresent_foldl_all chat_id rows (db, 0) r hr
  have hins2 : insertMessages (ingestAndAnalyze db chat_id rows).1 chat_id
      rows = ((ingestAndAnalyze db chat_id rows).1, 0) := by
    rw [insertMessages_eq_foldl]
    exact insertMessages_foldl_noop chat_id rows _ 0 hpresF
  have hsec := runAnalysisPipeline_second
    (insertMessages db chat_id rows).1 chat_id hwf1
  have hing2 : ingestAndAnalyze (ingestAndAnalyze db chat_id rows).1
      chat_id rows =
      ((runAnalysisPipeline (insertMessages (ingestAndAnalyze db chat_id
         rows).1 chat_id rows).1 chat_id).1,
       (insertMessages (ingestAndAnalyze db chat_id rows).1 chat_id
         rows).2,
       (runAnalysisPipeline (insertMessages (ingestAndAnalyze db chat_id
         rows).1 chat_id rows).1 chat_id).2) := rfl
  rw [hing2, hins2, hing]
  dsimp only
  rw [hsec]
  exact ⟨rfl, rfl, rfl, rfl⟩

/-- Witness for C4 at a concrete input: the empty store satisfies the
uniqueness invariant and re-ingesting a concrete two-message batch is a
no-op with all net-new counters zero. -/
theorem c4_reingestion_idempotent_witness :
    WF emptyDB = true ∧
    ((ingestAndAnalyze (ingestAndAnalyze emptyDB "chat-1" c4rows).1
        "chat-1" c4rows).1 =
      (ingestAndAnalyze emptyDB "chat-1" c4rows).1 ∧
     (ingestAndAnalyze (ingestAndAnalyze emptyDB "chat-1" c4rows).1
        "chat-1" c4rows).2.1 = 0 ∧
     (ingestAndAnalyze (ingestAndAnalyze emptyDB "chat-1" c4rows).1
        "chat-1" c4rows).2.2.decisions_new = 0 ∧
     (ingestAndAnalyze (ingestAndAnalyze emptyDB "chat-1" c4rows).1
        "chat-1" c4rows).2.2.responsibilities_new = 0) :=
  ⟨by decide,
   c4_reingestion_idempotent emptyDB "chat-1" c4rows (by decide)⟩

end Engine
